import Mathlib

/-!
Verification of the NoSQL movie-index repository.

Shallow embedding of the index builder (`aggregate_movies.py`) and of the
query / aggregation layer (`queris.py`, `redis_queries.py`) over a
key-value store model.  Python floats are modelled as exact rationals
(`Rat`); the special spellings `"inf"`, `"Infinity"`, `"NaN"` accepted by
Python's `float()` are modelled as parse failures, since `Rat` has no
infinities and no dataset field uses them.  Strings are compared and
trimmed at the character-list level, over the ASCII subset the data uses.
-/

namespace NoSQL

/-- A loosely typed JSON-ish value, as held in a parsed movie record.
`vnone` is Python `None` (it can occur inside literal lists). -/
inductive RawValue where
  | vnone : RawValue
  | vstr : String → RawValue
  | vint : Int → RawValue
  | vnum : Rat → RawValue
  | vlist : List RawValue → RawValue

/-- A parsed movie record: a finite mapping from field name to value,
as produced by `json.loads` in the source. -/
def Record := List (String × RawValue)

/-- First-occurrence association-list lookup (used both for record fields
and for the store's key spaces). -/
def alookup {κ : Type} {β : Type} [DecidableEq κ] : List (κ × β) → κ → Option β
  | [], _ => none
  | (k, v) :: rest, k' => if k' = k then some v else alookup rest k'

/-- `movie.get(f)`: `none` models Python `None` (missing field). -/
def getField (m : Record) (f : String) : Option RawValue :=
  alookup m f

/-- Characters Python's `str.strip()` removes (ASCII whitespace subset). -/
def isWs (c : Char) : Bool := c = ' ' ∨ c = '\t' ∨ c = '\n' ∨ c = '\r'

/-- `str.strip()` on the character list. -/
def trimChars (l : List Char) : List Char :=
  ((l.dropWhile isWs).reverse.dropWhile isWs).reverse

/-- `s.strip()`. -/
def strTrim (s : String) : String := ⟨trimChars s.data⟩

/-- Digit run to a natural number. -/
def digitsToNat (l : List Char) : Nat :=
  l.foldl (fun n c => 10 * n + (c.toNat - 48)) 0

/-- Truncation toward zero, Python's `int(float)`. -/
def pyTrunc (q : Rat) : Int := if q < 0 then -(⌊-q⌋) else ⌊q⌋

/-- Exponent suffix of a Python float literal, applied to the mantissa. -/
def parseExp (base : Rat) (t : List Char) : Option Rat :=
  let (sign, digs) : Int × List Char :=
    match t with
    | '-' :: d => (-1, d)
    | '+' :: d => (1, d)
    | d => (1, d)
  if digs ≠ [] ∧ digs.all Char.isDigit then
    some (base * (10 : Rat) ^ (sign * (digitsToNat digs : Int)))
  else none

/-- Unsigned part of a Python float literal: digits, optional fraction,
optional exponent.  Returns the exact rational value. -/
def parseUnsigned (l : List Char) : Option Rat :=
  let intPart := l.takeWhile Char.isDigit
  let rest1 := l.dropWhile Char.isDigit
  let (fracPart, rest2) :=
    match rest1 with
    | '.' :: t => (t.takeWhile Char.isDigit, t.dropWhile Char.isDigit)
    | _ => ([], rest1)
  if intPart = [] ∧ fracPart = [] then none
  else
    let mant : Rat := (digitsToNat (intPart ++ fracPart) : Int)
    let base : Rat := mant / ((10 : Rat) ^ fracPart.length)
    match rest2 with
    | [] => some base
    | 'e' :: t => parseExp base t
    | 'E' :: t => parseExp base t
    | _ => none

/-- Python `float(s)` on a string: strip, optional sign, numeric literal.
(`inf` / `nan` spellings modelled as failures, see the file header.) -/
def parseNum (s : String) : Option Rat :=
  match trimChars s.data with
  | '-' :: rest => (parseUnsigned rest).map (fun q => -q)
  | '+' :: rest => parseUnsigned rest
  | l => parseUnsigned l

/-- Python `float(x)`; `none` means `float` raises. -/
def pyFloat : Option RawValue → Option Rat
  | some (.vint n) => some (n : Rat)
  | some (.vnum q) => some q
  | some (.vstr s) => parseNum s
  | _ => none

/-- The guard `x in (None, "", "nan")` from the source's coercions. -/
def isSentinel : Option RawValue → Bool
  | none => true
  | some .vnone => true
  | some (.vstr s) => s = "" ∨ s = "nan"
  | _ => false

/-- `float(x) if x not in (None, "", "nan") else 0.0`; `none` means the
coercion raises (and the record-level handler then skips the record). -/
def coerceNum (v : Option RawValue) : Option Rat :=
  if isSentinel v then some 0 else pyFloat v

/-- `safe_float` from `redis_queries.py`: same coercion but with a
`try/except` returning the default `0.0` instead of raising. -/
def safe_float (v : Option RawValue) : Rat :=
  (coerceNum v).getD 0

/-- `movie.get(f, "").strip()`: `none` means `.strip()` raises because the
stored value is not a string. -/
def stripField : Option RawValue → Option String
  | none => some ""
  | some (.vstr s) => some (strTrim s)
  | some _ => none

/-- Python `str(x)` (approximated for the value shapes the data uses;
float `repr` is approximated by the rational's representation). -/
def pyStr : RawValue → String
  | .vnone => "None"
  | .vstr s => s
  | .vint n => toString n
  | .vnum q => toString q
  | .vlist _ => "[...]"

/-- `str(movie.get("id"))`: the stringified record id. -/
def recordId (m : Record) : String :=
  match getField m "id" with
  | none => "None"
  | some v => pyStr v

/-- The primary key `f"movie:{movie_id}"` under which the record is indexed. -/
def movieKey (i : String) : String := "movie:" ++ i

/-- Release-year parsing (lines 83-91 of `aggregate_movies.py`): ints and
floats stringify through `int`, digit-only strings parse, anything else
yields no year. -/
def parseYear : Option RawValue → Option String
  | some (.vint n) => some (toString n)
  | some (.vnum q) => some (toString (pyTrunc q))
  | some (.vstr s) =>
      let t := trimChars s.data
      if t ≠ [] ∧ t.all Char.isDigit then some (toString (digitsToNat t)) else none
  | _ => none

/-- Python truthiness for the value shapes that occur in parsed lists. -/
def pyTruthy : RawValue → Bool
  | .vnone => false
  | .vstr s => s ≠ ""
  | .vint n => n ≠ 0
  | .vnum q => q ≠ 0
  | .vlist l => !l.isEmpty

/-- The identity check `g is not None` from the genre comprehension. -/
def isNotNone : RawValue → Bool
  | .vnone => false
  | _ => true

/-- Drop leading whitespace. -/
def skipWs (l : List Char) : List Char := l.dropWhile isWs

/-- Scan a quoted string literal up to the closing quote `q`. -/
def plTakeStr (q : Char) : List Char → Option (List Char × List Char)
  | [] => none
  | c :: rest =>
      if c = q then some ([], rest)
      else (plTakeStr q rest).map (fun p => (c :: p.1, p.2))

/-- One element of a Python literal list: a quoted string, `None`, or an
unsigned integer (the shapes genre/country lists contain). -/
def plItem : List Char → Option (RawValue × List Char)
  | '\'' :: rest => (plTakeStr '\'' rest).map (fun p => (.vstr ⟨p.1⟩, p.2))
  | '"' :: rest => (plTakeStr '"' rest).map (fun p => (.vstr ⟨p.1⟩, p.2))
  | 'N' :: 'o' :: 'n' :: 'e' :: rest => some (.vnone, rest)
  | l =>
      let digs := l.takeWhile Char.isDigit
      if digs ≠ [] then some (.vint (digitsToNat digs : Int), l.dropWhile Char.isDigit)
      else none

/-- Element loop of the literal-list parser (fuel-indexed; fuel is the
remaining character count plus one, so it never runs out on real input). -/
def plLoop : Nat → List Char → Option (List RawValue)
  | 0, _ => none
  | _ + 1, ']' :: rest => if skipWs rest = [] then some [] else none
  | fuel + 1, l =>
      match plItem l with
      | none => none
      | some (v, r) =>
          match skipWs r with
          | ',' :: r2 => (plLoop fuel (skipWs r2)).map (v :: ·)
          | ']' :: rest => if skipWs rest = [] then some [v] else none
          | _ => none

/-- `ast.literal_eval` restricted to list literals of strings / ints /
`None` — the only shapes the genre and country fields hold.  `none` models
both a parse error and a non-list literal (iterating which would raise or
produce characters; neither occurs in the data). -/
def pyLiteralList (s : String) : Option (List RawValue) :=
  match trimChars s.data with
  | '[' :: rest => plLoop (rest.length + 1) (skipWs rest)
  | _ => none

/-- Genre-list parsing (lines 102-108): literal-eval a stringified list
(or use a native list), then `[str(g).strip() for g in genres if g is not
None]`; any failure yields `[]`. -/
def parseGenres (v : Option RawValue) : List String :=
  match v.getD (.vstr "[]") with
  | .vstr s =>
      match pyLiteralList s with
      | some items => (items.filter isNotNone).map (fun g => strTrim (pyStr g))
      | none => []
  | .vlist items => (items.filter isNotNone).map (fun g => strTrim (pyStr g))
  | _ => []

/-- Genre-list parsing as `aggregate_genre_combinations` does it
(`redis_queries.py` lines 558-563): same literal-eval step, but the
comprehension filters by TRUTHINESS (`for g in genres if g`), dropping
falsy raw entries such as `''`, `0`, or `None` — unlike the
`is not None` filter of `aggregate_movies.py` line 106. -/
def parseGenresTruthy (v : Option RawValue) : List String :=
  match v.getD (.vstr "[]") with
  | .vstr s =>
      match pyLiteralList s with
      | some items => (items.filter pyTruthy).map (fun g => strTrim (pyStr g))
      | none => []
  | .vlist items => (items.filter pyTruthy).map (fun g => strTrim (pyStr g))
  | _ => []

/-- Split on `,` at the character level (Python `s.split(',')`). -/
def splitCommas (l : List Char) : List (List Char) :=
  l.foldr
    (fun c acc =>
      match acc with
      | a :: as => if c = ',' then [] :: a :: as else (c :: a) :: as
      | [] => [[c]])
    [[]]

/-- Production-country parsing (lines 110-123): a bracketed string goes
through the literal parser with a truthiness filter, a plain string is
split on commas; non-strings and failures yield `[]`. -/
def parseCountries (v : Option RawValue) : List String :=
  match v.getD (.vstr "") with
  | .vstr s =>
      if s ≠ "" then
        if s.startsWith "[" then
          match pyLiteralList s with
          | some items => (items.filter pyTruthy).map (fun c => strTrim (pyStr c))
          | none => []
        else (splitCommas s.data).map (fun cs => strTrim ⟨cs⟩)
      else []
  | _ => []

/-- The normalized attribute bundle one record yields (lines 59-123). -/
structure Extracted where
  movieId : String
  voteAvg : Rat
  imdbRating : Rat
  budget : Rat
  revenue : Rat
  runtime : Rat
  popularity : Rat
  voteCount : Rat
  year : Option String
  language : String
  director : String
  mainCast : String
  genres : List String
  countries : List String
deriving Repr, DecidableEq

/-- Field extraction for one record.  `none` means one of the numeric
coercions or one of the `.strip()` calls raised, in which case the
record-level `except` in `aggregate_data` skips the record entirely. -/
def extract (m : Record) : Option Extracted :=
  match coerceNum (getField m "vote_average"), coerceNum (getField m "IMDB_Rating"),
        coerceNum (getField m "budget"), coerceNum (getField m "revenue"),
        coerceNum (getField m "runtime"), coerceNum (getField m "popularity"),
        coerceNum (getField m "vote_count"),
        stripField (getField m "original_language"), stripField (getField m "director"),
        stripField (getField m "Star1") with
  | some va, some ir, some bu, some re, some ru, some po, some vc,
    some la, some di, some mc =>
      some { movieId := recordId m, voteAvg := va, imdbRating := ir, budget := bu,
             revenue := re, runtime := ru, popularity := po, voteCount := vc,
             year := parseYear (getField m "release_year"),
             language := la, director := di, mainCast := mc,
             genres := parseGenres (getField m "genres_list"),
             countries := parseCountries (getField m "production_countries") }
  | _, _, _, _, _, _, _, _, _, _ => none

/-! ## The key-value store (Redis) model

Sets and sorted sets live in one keyspace; they are modelled as two
insertion-ordered association maps (a Redis key holds exactly one type,
and the source never mixes types under one name). -/

/-- Update the first occurrence of `k`, or append a fresh entry built
from `f none`. -/
def setUpd {κ : Type} {β : Type} [DecidableEq κ]
    (l : List (κ × β)) (k : κ) (f : Option β → β) : List (κ × β) :=
  match l with
  | [] => [(k, f none)]
  | (k', v) :: rest => if k = k' then (k', f (some v)) :: rest else (k', v) :: setUpd rest k f

structure Store where
  sets : List (String × List String)
  zsets : List (String × List (String × Rat))

def Store.empty : Store := ⟨[], []⟩

/-- `SMEMBERS` (as the list in insertion order; Redis sets are unordered,
and every property stated below is order-insensitive). -/
def Store.smembers (st : Store) (k : String) : List String :=
  (alookup st.sets k).getD []

/-- `SADD key member` (idempotent). -/
def Store.sadd (st : Store) (k m : String) : Store :=
  { st with sets := setUpd st.sets k (fun o =>
      match o with
      | none => [m]
      | some l => if m ∈ l then l else l ++ [m]) }

/-- `SCARD`. -/
def Store.scard (st : Store) (k : String) : Nat := (st.smembers k).length

/-- The member/score pairs of a sorted set. -/
def Store.zpairs (st : Store) (k : String) : List (String × Rat) :=
  (alookup st.zsets k).getD []

/-- `ZADD key {member: score}` (inserts or updates the member's score). -/
def Store.zadd (st : Store) (k m : String) (v : Rat) : Store :=
  { st with zsets := setUpd st.zsets k (fun o =>
      setUpd (o.getD []) m (fun _ => v)) }

/-- `ZSCORE`. -/
def Store.zscore (st : Store) (k m : String) : Option Rat :=
  alookup (st.zpairs k) m

/-- `p` is a leading segment of `k` (Python `k.startswith(p)`), at the
character level. -/
def strLeads : List Char → List Char → Bool
  | [], _ => true
  | _ :: _, [] => false
  | a :: as, b :: bs => a = b && strLeads as bs

/-- `k.startswith(p)` on strings. -/
def keyHasNs (p k : String) : Bool := strLeads p.data k.data

/-- The cleanup patterns of `aggregate_data` (lines 25-29), verbatim. -/
def managedNs : List String :=
  ["genre:", "actor:", "year:", "top_rated:", "director:", "country:",
   "language:", "zset:imdb_rating", "zset:vote_average", "zset:budget",
   "zset:revenue", "zset:runtime", "zset:popularity", "zset:vote_count"]

/-- A key matched (and deleted) by the cleanup scan. -/
def managedKey (k : String) : Bool := managedNs.any (fun p => keyHasNs p k)

/-- Lines 30-32: delete every key under a managed pattern. -/
def cleanup (st : Store) : Store :=
  { sets := st.sets.filter (fun kv => !managedKey kv.1),
    zsets := st.zsets.filter (fun kv => !managedKey kv.1) }

/-! ## The index writes of `aggregate_data` (lines 129-181) -/

/-- Lines 131-132: actor index. -/
def addActor (e : Extracted) (st : Store) : Store :=
  if e.mainCast ≠ "" then st.sadd ("actor:" ++ e.mainCast) (movieKey e.movieId) else st

/-- Lines 135-136: director index. -/
def addDirector (e : Extracted) (st : Store) : Store :=
  if e.director ≠ "" then st.sadd ("director:" ++ e.director) (movieKey e.movieId) else st

/-- Lines 139-143: one genre's set entry plus (for positive ratings) its
scoped ranking entry. -/
def addOneGenre (e : Extracted) (st : Store) (g : String) : Store :=
  if g ≠ "" then
    let st := st.sadd ("genre:" ++ g) (movieKey e.movieId)
    if 0 < e.voteAvg then st.zadd ("top_rated:" ++ g) (movieKey e.movieId) e.voteAvg else st
  else st

def addGenres (e : Extracted) (st : Store) : Store :=
  e.genres.foldl (addOneGenre e) st

/-- Lines 146-147: year index. -/
def addYear (e : Extracted) (st : Store) : Store :=
  match e.year with
  | some y => st.sadd ("year:" ++ y) (movieKey e.movieId)
  | none => st

/-- Lines 150-151: language index. -/
def addLanguage (e : Extracted) (st : Store) : Store :=
  if e.language ≠ "" then st.sadd ("language:" ++ e.language) (movieKey e.movieId) else st

/-- Lines 154-156: country indexes. -/
def addCountries (e : Extracted) (st : Store) : Store :=
  e.countries.foldl
    (fun st c => if c ≠ "" then st.sadd ("country:" ++ c) (movieKey e.movieId) else st) st

/-- The seven managed numeric attributes. -/
inductive NumField where
  | imdbRating | voteAvg | budget | revenue | runtime | popularity | voteCount
deriving DecidableEq, Repr

/-- The coerced value of a numeric attribute. -/
def fieldVal (e : Extracted) : NumField → Rat
  | .imdbRating => e.imdbRating
  | .voteAvg => e.voteAvg
  | .budget => e.budget
  | .revenue => e.revenue
  | .runtime => e.runtime
  | .popularity => e.popularity
  | .voteCount => e.voteCount

/-- The global ordered-index key of a numeric attribute. -/
def zsetName : NumField → String
  | .imdbRating => "zset:imdb_rating"
  | .voteAvg => "zset:vote_average"
  | .budget => "zset:budget"
  | .revenue => "zset:revenue"
  | .runtime => "zset:runtime"
  | .popularity => "zset:popularity"
  | .voteCount => "zset:vote_count"

/-- The source order of the seven guarded `zadd` blocks (lines 162-181). -/
def numFields : List NumField :=
  [.imdbRating, .voteAvg, .budget, .revenue, .runtime, .popularity, .voteCount]

/-- Lines 162-181: the seven guarded global sorted-set writes, expressed
as a fold over `numFields` in source order. -/
def addZsets (e : Extracted) (st : Store) : Store :=
  numFields.foldl
    (fun st f =>
      if 0 < fieldVal e f then st.zadd (zsetName f) (movieKey e.movieId) (fieldVal e f)
      else st) st

/-- All index writes for one extracted record, in source order, under the
`if movie_id:` guard of line 129. -/
def indexRecord (e : Extracted) (st : Store) : Store :=
  if e.movieId ≠ "" then
    addZsets e (addCountries e (addLanguage e (addYear e
      (addGenres e (addDirector e (addActor e st))))))
  else st

/-- Process one scanned record: extraction failure is caught by the
record-level handler (line 187) and writes nothing. -/
def processRecord (st : Store) (m : Record) : Store :=
  match extract m with
  | some e => indexRecord e st
  | none => st

/-- `aggregate_data()` over the scanned records: cleanup, then one pass of
per-record index writes.  (The `NUM_ROWS` cap only bounds which records
are scanned; `ms` is the list of records actually processed.) -/
def rebuild (ms : List Record) (st : Store) : Store :=
  ms.foldl processRecord (cleanup st)

/-- The store states reached after each record's writes, starting from `st`. -/
def statesFrom (st : Store) : List Record → List Store
  | [] => []
  | m :: rest => processRecord st m :: statesFrom (processRecord st m) rest

/-- The store states a concurrent reader can observe during a rebuild:
after the eager cleanup and after each record's writes. -/
def rebuildStates (ms : List Record) (st : Store) : List Store :=
  cleanup st :: statesFrom (cleanup st) ms

/-! ## Sorting helpers

`sortBy r` is a stable insertion sort: `r x y` says `x` may be placed
before `y`.  It models both Redis's canonical sorted-set order and
Python's stable `list.sort`. -/

def insBy {α : Type} (r : α → α → Bool) (x : α) : List α → List α
  | [] => [x]
  | y :: ys => if r x y then x :: y :: ys else y :: insBy r x ys

def sortBy {α : Type} (r : α → α → Bool) (l : List α) : List α :=
  l.foldr (insBy r) []

/-- Lexicographic code-point comparison of character lists (Python's
string `<=`, and the member tie-break order of Redis sorted sets). -/
def charListLe : List Char → List Char → Bool
  | [], _ => true
  | _ :: _, [] => false
  | a :: as, b :: bs => a < b ∨ (a = b ∧ charListLe as bs)

def strLe (a b : String) : Bool := charListLe a.data b.data

/-- Redis's canonical sorted-set order: score ascending, ties broken by
member lexicographically ascending. -/
def zpairLe (a b : String × Rat) : Bool :=
  a.2 < b.2 ∨ (a.2 = b.2 ∧ strLe a.1 b.1)

/-- Python's `sort(key=lambda x: x[1], reverse=True)`: score descending,
stable. -/
def scoreDesc (a b : String × Rat) : Bool := b.2 ≤ a.2

/-- A `ZRANGEBYSCORE` bound: a score or an infinity sentinel. -/
inductive Bound where
  | ninf | fin (q : Rat) | pinf
deriving DecidableEq, Repr

def loLe : Bound → Rat → Bool
  | .ninf, _ => true
  | .fin q, x => q ≤ x
  | .pinf, _ => false

def hiGe : Bound → Rat → Bool
  | .pinf, _ => true
  | .fin q, x => x ≤ q
  | .ninf, _ => false

/-- `ZRANGEBYSCORE key lo hi`: members whose score lies in the inclusive
range, in canonical (score-ascending) order. -/
def zrangebyscore (st : Store) (k : String) (lo hi : Bound) : List String :=
  ((sortBy zpairLe (st.zpairs k)).filter (fun p => loLe lo p.2 && hiGe hi p.2)).map Prod.fst

/-- `ZREVRANGE key 0 -1 WITHSCORES`: the full ranking, score-descending. -/
def zrevrangeWithScores (st : Store) (k : String) : List (String × Rat) :=
  (sortBy zpairLe (st.zpairs k)).reverse

/-! ## Queries from `queris.py` -/

/-- `query_by_genre` (lines 21-28): the ids fetched and counted. -/
def query_by_genre (st : Store) (genre : String) : List String :=
  st.smembers ("genre:" ++ genre)

/-- `query_by_actor` (lines 30-35). -/
def query_by_actor (st : Store) (actor : String) : List String :=
  st.smembers ("actor:" ++ actor)

/-- `query_by_year` (lines 37-42). -/
def query_by_year (st : Store) (year : String) : List String :=
  st.smembers ("year:" ++ year)

/-- Redis `SINTER k1 k2`. -/
def sinter (st : Store) (k1 k2 : String) : List String :=
  (st.smembers k1).filter (fun m => (st.smembers k2).contains m)

/-- `query_by_actor_and_genre` (lines 46-51): the ids fetched and counted. -/
def query_by_actor_and_genre (st : Store) (actor genre : String) : List String :=
  sinter st ("actor:" ++ actor) ("genre:" ++ genre)

/-- `top_rated_by_genre_and_year` (lines 79-102): fetch the full scoped
ranking, keep members of the year bucket, re-sort by score descending
(Python's stable sort), truncate to `topN`. -/
def top_rated_by_genre_and_year (st : Store) (genre year : String) (topN : Nat) :
    List (String × Rat) :=
  let yearIds := st.smembers ("year:" ++ year)
  let ranking := zrevrangeWithScores st ("top_rated:" ++ genre)
  let commonScored := ranking.filter (fun p => yearIds.contains p.1)
  (sortBy scoreDesc commonScored).take topN

/-- `count_high_rated_action_movies` (lines 112-117). -/
def count_high_rated_action_movies (st : Store) (minRating : Rat) : Nat :=
  (zrangebyscore st "top_rated:Action" (.fin minRating) .pinf).length

/-! ## Aggregations from `redis_queries.py` -/

/-- `scan_iter(pat + "*")` over the set keyspace, in insertion order. -/
def scanSets (st : Store) (pat : String) : List String :=
  (st.sets.map Prod.fst).filter (keyHasNs pat)

/-- `key.split(pat)[1]` for a key that starts with the `n`-character
pattern: drop the first `n` characters. -/
def strDropChars (s : String) (n : Nat) : String := ⟨s.data.drop n⟩

/-- `load_movies_batch`: fetch many records, silently omitting absent
keys (`db` is the primary record store, key → parsed record). -/
def loadBatch (db : String → Option Record) (keys : List String) : List Record :=
  keys.filterMap db

/-- The positive coerced `vote_average` values of a key list's records
(the `ratings` accumulation loop shared by the aggregation queries). -/
def posRatings (db : String → Option Record) (keys : List String) : List Rat :=
  ((loadBatch db keys).map (fun m => safe_float (getField m "vote_average"))).filter
    (fun v => 0 < v)

/-- One row of `aggregate_avg_rating_per_genre`'s result. -/
structure GenreAgg where
  name : String
  movieCount : Nat
  avgRating : Rat
  maxRating : Rat
  minRating : Rat
deriving DecidableEq, Repr

/-- The per-bucket body of `aggregate_avg_rating_per_genre` (lines
403-427): note `movie_count` is `len(ratings)`, the count of members with
a positive rating, and buckets with no positive rating are dropped. -/
def perGenreEntry (db : String → Option Record) (st : Store) (k : String) :
    Option GenreAgg :=
  if keyHasNs "top_rated" (strDropChars k 6) then none
  else
    match posRatings db (st.smembers k) with
    | [] => none
    | r :: rest =>
        some { name := strDropChars k 6, movieCount := (r :: rest).length,
               avgRating := (r :: rest).sum / (r :: rest).length,
               maxRating := rest.foldl max r, minRating := rest.foldl min r }

/-- `aggregate_avg_rating_per_genre` (lines 396-433). -/
def aggregate_avg_rating_per_genre (db : String → Option Record) (st : Store) :
    List GenreAgg :=
  sortBy (fun a b => b.avgRating ≤ a.avgRating)
    ((scanSets st "genre:").filterMap (perGenreEntry db st))

/-- One row of `aggregate_top_actors_by_movie_count`'s result. -/
structure ActorAgg where
  name : String
  movieCount : Nat
  avgMovieRating : Rat
deriving DecidableEq, Repr

/-- The per-bucket body of `aggregate_top_actors_by_movie_count` (lines
440-465): `movie_count` is the full bucket size, with a `>= 3` support
threshold, and the average is over positive ratings only. -/
def perActorEntry (db : String → Option Record) (st : Store) (k : String) :
    Option ActorAgg :=
  if 3 ≤ (st.smembers k).length then
    match posRatings db (st.smembers k) with
    | [] => none
    | r :: rest =>
        some { name := strDropChars k 6, movieCount := (st.smembers k).length,
               avgMovieRating := (r :: rest).sum / (r :: rest).length }
  else none

/-- `aggregate_top_actors_by_movie_count` (lines 436-472). -/
def aggregate_top_actors_by_movie_count (db : String → Option Record) (st : Store)
    (topN : Nat) : List ActorAgg :=
  (sortBy
    (fun a b =>
      b.movieCount < a.movieCount ∨
        (b.movieCount = a.movieCount ∧ b.avgMovieRating ≤ a.avgMovieRating))
    ((scanSets st "actor:").filterMap (perActorEntry db st))).take topN

/-- One row of `aggregate_genre_combinations`'s result. -/
structure ComboAgg where
  genres : List String
  movieCount : Nat
  avgRating : Rat
deriving DecidableEq, Repr

/-- The per-record grouping step of `aggregate_genre_combinations` (lines
556-572): only records with more than one parsed genre contribute, keyed
by the sorted genre tuple. -/
def comboStep (combos : List (List String × Nat × List Rat)) (m : Record) :
    List (List String × Nat × List Rat) :=
  if 1 < (parseGenresTruthy (getField m "genres_list")).length then
    setUpd combos (sortBy strLe (parseGenresTruthy (getField m "genres_list"))) (fun o =>
      match o with
      | none =>
          (1, if 0 < safe_float (getField m "vote_average") then
            [safe_float (getField m "vote_average")] else [])
      | some p =>
          (p.1 + 1, if 0 < safe_float (getField m "vote_average") then
            p.2 ++ [safe_float (getField m "vote_average")] else p.2))
  else combos

/-- `aggregate_genre_combinations` (lines 541-589) over the full record
scan (`ms` is the list of `movie:*` records; the batching loop is purely
sequential and is flattened). -/
def aggregate_genre_combinations (ms : List Record) : List ComboAgg :=
  let combos := ms.foldl comboStep []
  sortBy (fun a b => b.movieCount ≤ a.movieCount)
    (combos.filterMap (fun kv =>
      if 3 ≤ kv.2.1 then
        some { genres := kv.1, movieCount := kv.2.1,
               avgRating := if kv.2.2 = [] then 0 else kv.2.2.sum / kv.2.2.length }
      else none))

/-! ## Association-map and store lemmas -/

theorem alookup_setUpd {κ β : Type} [DecidableEq κ] (l : List (κ × β)) (k : κ)
    (f : Option β → β) (k' : κ) :
    alookup (setUpd l k f) k' = if k' = k then some (f (alookup l k)) else alookup l k' := by
  induction l with
  | nil => simp [setUpd, alookup]
  | cons kv rest ih =>
      obtain ⟨a, v⟩ := kv
      by_cases hka : k = a
      · subst hka
        by_cases hk' : k' = k <;> simp [setUpd, alookup, hk']
      · have e1 : setUpd ((a, v) :: rest) k f = (a, v) :: setUpd rest k f := by
          simp [setUpd, hka]
        rw [e1]
        show (if k' = a then some v else alookup (setUpd rest k f) k') = _
        rw [ih]
        show _ = if k' = k then some (f (if k = a then some v else alookup rest k))
                 else (if k' = a then some v else alookup rest k')
        rw [if_neg hka]
        by_cases hk'a : k' = a
        · have hk'k : ¬ k' = k := fun h => hka (h.symm.trans hk'a)
          rw [if_pos hk'a, if_neg hk'k, if_pos hk'a]
        · rw [if_neg hk'a]
          by_cases hk'k : k' = k
          · rw [if_pos hk'k, if_pos hk'k]
          · rw [if_neg hk'k, if_neg hk'k, if_neg hk'a]

theorem alookup_none_of_filter {κ β : Type} [DecidableEq κ]
    (l : List (κ × β)) (p : κ × β → Bool) (k : κ) (hp : ∀ v, p (k, v) = false) :
    alookup (l.filter p) k = none := by
  induction l with
  | nil => rfl
  | cons kv rest ih =>
      obtain ⟨a, v⟩ := kv
      by_cases hka : k = a
      · subst hka
        simp [List.filter, hp v, ih]
      · by_cases hpv : p (a, v) <;> simp [List.filter, hpv, alookup, hka, ih]

theorem Store.sets_zadd (st : Store) (k m : String) (v : Rat) :
    (st.zadd k m v).sets = st.sets := rfl

theorem Store.zsets_sadd (st : Store) (k m : String) :
    (st.sadd k m).zsets = st.zsets := rfl

theorem Store.smembers_sadd (st : Store) (k m k' : String) :
    (st.sadd k m).smembers k' =
      if k' = k then
        (if m ∈ st.smembers k then st.smembers k else st.smembers k ++ [m])
      else st.smembers k' := by
  unfold Store.smembers Store.sadd
  rw [show (⟨setUpd st.sets k _, st.zsets⟩ : Store).sets = setUpd st.sets k _ from rfl,
    alookup_setUpd]
  by_cases hk : k' = k
  · subst hk
    cases h : alookup st.sets k' <;> simp [h]
  · simp [hk]

theorem Store.mem_smembers_sadd (st : Store) (k m k' x : String) :
    x ∈ (st.sadd k m).smembers k' ↔ x ∈ st.smembers k' ∨ (k' = k ∧ x = m) := by
  rw [Store.smembers_sadd]
  by_cases hk : k' = k
  · subst hk
    by_cases hm : m ∈ st.smembers k'
    · rw [if_pos rfl, if_pos hm]
      constructor
      · exact fun h => Or.inl h
      · rintro (h | ⟨-, rfl⟩)
        · exact h
        · exact hm
    · rw [if_pos rfl, if_neg hm]
      simp only [List.mem_append, List.mem_singleton]
      tauto
  · simp [hk]

theorem Store.smembers_sadd_other (st : Store) (k m k' : String) (h : k' ≠ k) :
    (st.sadd k m).smembers k' = st.smembers k' := by
  rw [Store.smembers_sadd, if_neg h]

theorem Store.zpairs_zadd (st : Store) (k m : String) (v : Rat) (k' : String) :
    (st.zadd k m v).zpairs k' =
      if k' = k then setUpd ((alookup st.zsets k).getD []) m (fun _ => v)
      else st.zpairs k' := by
  unfold Store.zpairs Store.zadd
  rw [show (⟨st.sets, setUpd st.zsets k _⟩ : Store).zsets = setUpd st.zsets k _ from rfl,
    alookup_setUpd]
  by_cases hk : k' = k <;> simp [hk]

theorem Store.zscore_zadd (st : Store) (k m : String) (v : Rat) (k' m' : String) :
    (st.zadd k m v).zscore k' m' =
      if k' = k ∧ m' = m then some v else st.zscore k' m' := by
  unfold Store.zscore
  rw [Store.zpairs_zadd]
  by_cases hk : k' = k
  · subst hk
    rw [if_pos rfl, alookup_setUpd]
    by_cases hm : m' = m <;> simp [hm, Store.zpairs]
  · simp [hk]

theorem Store.zscore_sadd (st : Store) (k m : String) (k' m' : String) :
    (st.sadd k m).zscore k' m' = st.zscore k' m' := rfl

theorem Store.smembers_zadd (st : Store) (k m : String) (v : Rat) (k' : String) :
    (st.zadd k m v).smembers k' = st.smembers k' := rfl

/-- After cleanup, every managed key has an empty member set. -/
theorem smembers_cleanup (st : Store) (k : String) (h : managedKey k = true) :
    (cleanup st).smembers k = [] := by
  unfold cleanup Store.smembers
  rw [show (⟨st.sets.filter _, st.zsets.filter _⟩ : Store).sets = st.sets.filter _ from rfl,
    alookup_none_of_filter]
  · rfl
  · intro v; simp [h]

/-- After cleanup, every managed key has no sorted-set entries. -/
theorem zscore_cleanup (st : Store) (k m : String) (h : managedKey k = true) :
    (cleanup st).zscore k m = none := by
  unfold cleanup Store.zscore Store.zpairs
  rw [show (⟨st.sets.filter _, st.zsets.filter _⟩ : Store).zsets = st.zsets.filter _ from rfl,
    alookup_none_of_filter]
  · rfl
  · intro v; simp [h]

/-! ## String-key facts -/

theorem strLeads_append (p : List Char) (t : List Char) :
    strLeads p (p ++ t) = true := by
  induction p with
  | nil => rfl
  | cons c cs ih => simp [strLeads, ih]

theorem keyHasNs_append (p s : String) : keyHasNs p (p ++ s) = true := by
  unfold keyHasNs
  rw [show (p ++ s).data = p.data ++ s.data from rfl]
  exact strLeads_append _ _

theorem string_ext (a b : String) (h : a.data = b.data) : a = b := by
  cases a; cases b; exact congrArg String.mk h

theorem string_append_right_inj (p a b : String) (h : p ++ a = p ++ b) : a = b := by
  have hd : p.data ++ a.data = p.data ++ b.data := congrArg String.data h
  have : a.data = b.data := List.append_cancel_left hd
  cases a; cases b; exact congrArg String.mk this

/-- Two namespace-built keys with different leading characters differ. -/
theorem append_ne_of_head_ne (p q s t : String) (c d : Char)
    (hp : p.data.head? = some c) (hq : q.data.head? = some d) (hcd : c ≠ d) :
    p ++ s ≠ q ++ t := by
  intro h
  have hd : p.data ++ s.data = q.data ++ t.data := congrArg String.data h
  rcases hp' : p.data with _ | ⟨c', cs⟩
  · rw [hp'] at hp; exact Option.noConfusion hp
  · rcases hq' : q.data with _ | ⟨d', ds⟩
    · rw [hq'] at hq; exact Option.noConfusion hq
    · rw [hp'] at hp; rw [hq'] at hq
      rw [hp', hq'] at hd
      have : c' = d' := by simpa using congrArg List.head? hd
      apply hcd
      cases hp; cases hq; exact this

/-! ## Sorting lemmas -/

theorem sortBy_cons {α : Type} (r : α → α → Bool) (x : α) (l : List α) :
    sortBy r (x :: l) = insBy r x (sortBy r l) := rfl

theorem mem_insBy {α : Type} (r : α → α → Bool) (x : α) (l : List α) (a : α) :
    a ∈ insBy r x l ↔ a = x ∨ a ∈ l := by
  induction l with
  | nil => simp [insBy]
  | cons y ys ih =>
      by_cases h : r x y
      · simp [insBy, h]
      · simp [insBy, h, ih]
        tauto

theorem mem_sortBy {α : Type} (r : α → α → Bool) (l : List α) (a : α) :
    a ∈ sortBy r l ↔ a ∈ l := by
  induction l with
  | nil => rfl
  | cons y ys ih => rw [sortBy_cons, mem_insBy, ih]; simp

theorem length_insBy {α : Type} (r : α → α → Bool) (x : α) (l : List α) :
    (insBy r x l).length = l.length + 1 := by
  induction l with
  | nil => rfl
  | cons y ys ih => by_cases h : r x y <;> simp [insBy, h, ih]

theorem length_sortBy {α : Type} (r : α → α → Bool) (l : List α) :
    (sortBy r l).length = l.length := by
  induction l with
  | nil => rfl
  | cons y ys ih => rw [sortBy_cons, length_insBy, ih]; rfl

theorem perm_insBy {α : Type} (r : α → α → Bool) (x : α) (l : List α) :
    List.Perm (insBy r x l) (x :: l) := by
  induction l with
  | nil => exact List.Perm.refl _
  | cons y ys ih =>
      by_cases h : r x y
      · simp [insBy, h]
      · rw [insBy, if_neg h]
        exact (ih.cons y).trans (List.Perm.swap x y ys)

theorem perm_sortBy {α : Type} (r : α → α → Bool) (l : List α) :
    List.Perm (sortBy r l) l := by
  induction l with
  | nil => exact List.Perm.refl _
  | cons y ys ih => exact (perm_insBy r y (sortBy r ys)).trans (ih.cons y)

theorem pairwise_insBy {α : Type} (r : α → α → Bool)
    (htr : ∀ a b c, r a b = true → r b c = true → r a c = true)
    (hto : ∀ a b, r a b = false → r b a = true)
    (x : α) (l : List α) (hp : l.Pairwise (fun a b => r a b = true)) :
    (insBy r x l).Pairwise (fun a b => r a b = true) := by
  induction l with
  | nil => simp [insBy]
  | cons y ys ih =>
      rcases List.pairwise_cons.mp hp with ⟨hy, hys⟩
      by_cases h : r x y
      · rw [insBy, if_pos h]
        refine List.pairwise_cons.mpr ⟨?_, hp⟩
        intro z hz
        rcases List.mem_cons.mp hz with hz0 | hz'
        · rw [hz0]; exact h
        · exact htr x y z h (hy z hz')
      · rw [insBy, if_neg h]
        refine List.pairwise_cons.mpr ⟨?_, ih hys⟩
        intro z hz
        rcases (mem_insBy r x ys z).mp hz with hz0 | hz'
        · rw [hz0]
          have hf : r x y = false := by simpa using h
          exact hto x y hf
        · exact hy z hz'

theorem pairwise_sortBy {α : Type} (r : α → α → Bool)
    (htr : ∀ a b c, r a b = true → r b c = true → r a c = true)
    (hto : ∀ a b, r a b = false → r b a = true) (l : List α) :
    (sortBy r l).Pairwise (fun a b => r a b = true) := by
  induction l with
  | nil => simp [sortBy]
  | cons y ys ih => exact pairwise_insBy r htr hto y (sortBy r ys) ih

/-! ## Fold-max / fold-min lemmas (Python `max(list)` / `min(list)`) -/

theorem foldl_max_mem {α : Type} [LinearOrder α] (l : List α) (a : α) :
    l.foldl max a ∈ a :: l := by
  induction l generalizing a with
  | nil => simp
  | cons b bs ih =>
      rcases List.mem_cons.mp (ih (max a b)) with h | h
      · rcases max_choice a b with h' | h' <;> rw [List.foldl_cons, h, h'] <;> simp
      · simp [List.foldl_cons, List.mem_cons.mpr (Or.inr (List.mem_cons.mpr (Or.inr h)))]

theorem le_foldl_max {α : Type} [LinearOrder α] (l : List α) (a : α) :
    ∀ x ∈ a :: l, x ≤ l.foldl max a := by
  induction l generalizing a with
  | nil => intro x hx; rw [List.mem_singleton.mp hx]; exact le_refl _
  | cons b bs ih =>
      intro x hx
      rcases List.mem_cons.mp hx with rfl | hx'
      · exact le_trans (le_max_left x b) (ih (max x b) _ (List.mem_cons.mpr (Or.inl rfl)))
      · rcases List.mem_cons.mp hx' with rfl | hx''
        · exact le_trans (le_max_right a x) (ih (max a x) _ (List.mem_cons.mpr (Or.inl rfl)))
        · exact ih (max a b) x (List.mem_cons.mpr (Or.inr hx''))

theorem foldl_min_mem {α : Type} [LinearOrder α] (l : List α) (a : α) :
    l.foldl min a ∈ a :: l := by
  induction l generalizing a with
  | nil => simp
  | cons b bs ih =>
      rcases List.mem_cons.mp (ih (min a b)) with h | h
      · rcases min_choice a b with h' | h' <;> rw [List.foldl_cons, h, h'] <;> simp
      · simp [List.foldl_cons, List.mem_cons.mpr (Or.inr (List.mem_cons.mpr (Or.inr h)))]

theorem foldl_min_le {α : Type} [LinearOrder α] (l : List α) (a : α) :
    ∀ x ∈ a :: l, l.foldl min a ≤ x := by
  induction l generalizing a with
  | nil => intro x hx; rw [List.mem_singleton.mp hx]; exact le_refl _
  | cons b bs ih =>
      intro x hx
      rcases List.mem_cons.mp hx with rfl | hx'
      · exact le_trans (ih (min x b) _ (List.mem_cons.mpr (Or.inl rfl))) (min_le_left x b)
      · rcases List.mem_cons.mp hx' with rfl | hx''
        · exact le_trans (ih (min a x) _ (List.mem_cons.mpr (Or.inl rfl))) (min_le_right a x)
        · exact ih (min a b) x (List.mem_cons.mpr (Or.inr hx''))

/-! ## Which set-index keys one record writes -/

/-- `nsMatch e K`: the record with attribute bundle `e` adds its movie key
to the set `K` (one disjunct per `sadd` site of `aggregate_data`). -/
def nsMatch (e : Extracted) (K : String) : Prop :=
  (e.mainCast ≠ "" ∧ K = "actor:" ++ e.mainCast) ∨
  (e.director ≠ "" ∧ K = "director:" ++ e.director) ∨
  (∃ g, g ∈ e.genres ∧ g ≠ "" ∧ K = "genre:" ++ g) ∨
  (∃ y, e.year = some y ∧ K = "year:" ++ y) ∨
  (e.language ≠ "" ∧ K = "language:" ++ e.language) ∨
  (∃ c, c ∈ e.countries ∧ c ≠ "" ∧ K = "country:" ++ c)

/-- Record `m` contributes member `x` to the set `K` when processed. -/
def setContrib (m : Record) (K x : String) : Prop :=
  ∃ e, extract m = some e ∧ e.movieId ≠ "" ∧ x = movieKey e.movieId ∧ nsMatch e K

theorem mem_smembers_addActor (e : Extracted) (st : Store) (K x : String) :
    x ∈ (addActor e st).smembers K ↔
      x ∈ st.smembers K ∨
        (e.mainCast ≠ "" ∧ K = "actor:" ++ e.mainCast ∧ x = movieKey e.movieId) := by
  unfold addActor
  by_cases h : e.mainCast = ""
  · simp [h]
  · rw [if_pos h, Store.mem_smembers_sadd]
    constructor
    · rintro (hx | ⟨hK, hx⟩)
      · exact Or.inl hx
      · exact Or.inr ⟨h, hK, hx⟩
    · rintro (hx | ⟨-, hK, hx⟩)
      · exact Or.inl hx
      · exact Or.inr ⟨hK, hx⟩

theorem mem_smembers_addDirector (e : Extracted) (st : Store) (K x : String) :
    x ∈ (addDirector e st).smembers K ↔
      x ∈ st.smembers K ∨
        (e.director ≠ "" ∧ K = "director:" ++ e.director ∧ x = movieKey e.movieId) := by
  unfold addDirector
  by_cases h : e.director = ""
  · simp [h]
  · rw [if_pos h, Store.mem_smembers_sadd]
    constructor
    · rintro (hx | ⟨hK, hx⟩)
      · exact Or.inl hx
      · exact Or.inr ⟨h, hK, hx⟩
    · rintro (hx | ⟨-, hK, hx⟩)
      · exact Or.inl hx
      · exact Or.inr ⟨hK, hx⟩

theorem mem_smembers_addLanguage (e : Extracted) (st : Store) (K x : String) :
    x ∈ (addLanguage e st).smembers K ↔
      x ∈ st.smembers K ∨
        (e.language ≠ "" ∧ K = "language:" ++ e.language ∧ x = movieKey e.movieId) := by
  unfold addLanguage
  by_cases h : e.language = ""
  · simp [h]
  · rw [if_pos h, Store.mem_smembers_sadd]
    constructor
    · rintro (hx | ⟨hK, hx⟩)
      · exact Or.inl hx
      · exact Or.inr ⟨h, hK, hx⟩
    · rintro (hx | ⟨-, hK, hx⟩)
      · exact Or.inl hx
      · exact Or.inr ⟨hK, hx⟩

theorem mem_smembers_addYear (e : Extracted) (st : Store) (K x : String) :
    x ∈ (addYear e st).smembers K ↔
      x ∈ st.smembers K ∨
        (∃ y, e.year = some y ∧ K = "year:" ++ y ∧ x = movieKey e.movieId) := by
  unfold addYear
  cases hy : e.year with
  | none => simp
  | some y =>
      rw [Store.mem_smembers_sadd]
      constructor
      · rintro (hx | ⟨hK, hx⟩)
        · exact Or.inl hx
        · exact Or.inr ⟨y, rfl, hK, hx⟩
      · rintro (hx | ⟨y', hy', hK, hx⟩)
        · exact Or.inl hx
        · rw [show y' = y from (Option.some.inj hy').symm] at hK
          exact Or.inr ⟨hK, hx⟩

theorem mem_smembers_addOneGenre (e : Extracted) (st : Store) (g : String) (K x : String) :
    x ∈ (addOneGenre e st g).smembers K ↔
      x ∈ st.smembers K ∨
        (g ≠ "" ∧ K = "genre:" ++ g ∧ x = movieKey e.movieId) := by
  unfold addOneGenre
  by_cases h : g = ""
  · simp [h]
  · rw [if_pos h]
    by_cases hv : 0 < e.voteAvg
    · rw [if_pos hv, Store.smembers_zadd, Store.mem_smembers_sadd]
      constructor
      · rintro (hx | ⟨hK, hx⟩)
        · exact Or.inl hx
        · exact Or.inr ⟨h, hK, hx⟩
      · rintro (hx | ⟨-, hK, hx⟩)
        · exact Or.inl hx
        · exact Or.inr ⟨hK, hx⟩
    · rw [if_neg hv, Store.mem_smembers_sadd]
      constructor
      · rintro (hx | ⟨hK, hx⟩)
        · exact Or.inl hx
        · exact Or.inr ⟨h, hK, hx⟩
      · rintro (hx | ⟨-, hK, hx⟩)
        · exact Or.inl hx
        · exact Or.inr ⟨hK, hx⟩

theorem mem_smembers_foldGenres (e : Extracted) (gs : List String) (st : Store)
    (K x : String) :
    x ∈ (gs.foldl (addOneGenre e) st).smembers K ↔
      x ∈ st.smembers K ∨
        (∃ g, g ∈ gs ∧ g ≠ "" ∧ K = "genre:" ++ g ∧ x = movieKey e.movieId) := by
  induction gs generalizing st with
  | nil => simp
  | cons g rest ih =>
      rw [List.foldl_cons, ih, mem_smembers_addOneGenre]
      constructor
      · rintro ((hx | ⟨hg, hK, hx⟩) | ⟨g', hg', hne, hK, hx⟩)
        · exact Or.inl hx
        · exact Or.inr ⟨g, List.mem_cons.mpr (Or.inl rfl), hg, hK, hx⟩
        · exact Or.inr ⟨g', List.mem_cons.mpr (Or.inr hg'), hne, hK, hx⟩
      · rintro (hx | ⟨g', hg', hne, hK, hx⟩)
        · exact Or.inl (Or.inl hx)
        · rcases List.mem_cons.mp hg' with hg0 | hg1
          · exact Or.inl (Or.inr ⟨hg0 ▸ hne, hg0 ▸ hK, hx⟩)
          · exact Or.inr ⟨g', hg1, hne, hK, hx⟩

theorem mem_smembers_foldCountries (e : Extracted) (cs : List String) (st : Store)
    (K x : String) :
    x ∈ (cs.foldl
        (fun st c => if c ≠ "" then st.sadd ("country:" ++ c) (movieKey e.movieId) else st)
        st).smembers K ↔
      x ∈ st.smembers K ∨
        (∃ c, c ∈ cs ∧ c ≠ "" ∧ K = "country:" ++ c ∧ x = movieKey e.movieId) := by
  induction cs generalizing st with
  | nil => simp
  | cons c rest ih =>
      rw [List.foldl_cons, ih]
      by_cases h : c = ""
      · simp only [h]
        constructor
        · rintro (hx | ⟨c', hc', hne, hK, hx⟩)
          · simp at hx
            exact Or.inl hx
          · exact Or.inr ⟨c', List.mem_cons.mpr (Or.inr hc'), hne, hK, hx⟩
        · rintro (hx | ⟨c', hc', hne, hK, hx⟩)
          · exact Or.inl (by simpa using hx)
          · rcases List.mem_cons.mp hc' with hc0 | hc1
            · exact absurd (hc0 ▸ rfl) (hc0 ▸ hne)
            · exact Or.inr ⟨c', hc1, hne, hK, hx⟩
      · rw [if_pos h]
        constructor
        · rintro (hx | ⟨c', hc', hne, hK, hx⟩)
          · rcases (Store.mem_smembers_sadd st _ _ K x).mp hx with hx0 | ⟨hK, hx1⟩
            · exact Or.inl hx0
            · exact Or.inr ⟨c, List.mem_cons.mpr (Or.inl rfl), h, hK, hx1⟩
          · exact Or.inr ⟨c', List.mem_cons.mpr (Or.inr hc'), hne, hK, hx⟩
        · rintro (hx | ⟨c', hc', hne, hK, hx⟩)
          · exact Or.inl ((Store.mem_smembers_sadd st _ _ K x).mpr (Or.inl hx))
          · rcases List.mem_cons.mp hc' with hc0 | hc1
            · exact Or.inl ((Store.mem_smembers_sadd st _ _ K x).mpr
                (Or.inr ⟨hc0 ▸ hK, hx⟩))
            · exact Or.inr ⟨c', hc1, hne, hK, hx⟩

theorem smembers_addZsets (e : Extracted) (st : Store) (K : String) :
    (addZsets e st).smembers K = st.smembers K := by
  unfold addZsets
  generalize numFields = fs
  induction fs generalizing st with
  | nil => rfl
  | cons f rest ih =>
      rw [List.foldl_cons]
      by_cases h : 0 < fieldVal e f
      · rw [if_pos h, ih, Store.smembers_zadd]
      · rw [if_neg h, ih]

/-- Membership in a set after one record is processed. -/
theorem mem_smembers_processRecord (st : Store) (m : Record) (K x : String) :
    x ∈ (processRecord st m).smembers K ↔ x ∈ st.smembers K ∨ setContrib m K x := by
  cases hm : extract m with
  | none =>
      have hpr : processRecord st m = st := by unfold processRecord; rw [hm]
      rw [hpr]
      unfold setContrib
      constructor
      · exact Or.inl
      · rintro (hx | ⟨e, he, -⟩)
        · exact hx
        · rw [hm] at he
          exact Option.noConfusion he
  | some e =>
      have hpr : processRecord st m = indexRecord e st := by unfold processRecord; rw [hm]
      rw [hpr]
      unfold indexRecord
      by_cases hid : e.movieId = ""
      · rw [if_neg (by simpa using hid)]
        unfold setContrib
        constructor
        · exact Or.inl
        · rintro (hx | ⟨e', he', hne, -⟩)
          · exact hx
          · rw [hm] at he'
            rw [show e' = e from (Option.some.inj he').symm] at hne
            exact absurd hid hne
      · rw [if_pos hid, smembers_addZsets]
        unfold addCountries addGenres
        rw [mem_smembers_foldCountries, mem_smembers_addLanguage, mem_smembers_addYear,
          mem_smembers_foldGenres, mem_smembers_addDirector, mem_smembers_addActor]
        unfold setContrib nsMatch
        constructor
        · rintro ((((((hx | hac) | hdir) | hgen) | hyr) | hlang) | hcty)
          · exact Or.inl hx
          · exact Or.inr ⟨e, hm, hid, hac.2.2, Or.inl ⟨hac.1, hac.2.1⟩⟩
          · exact Or.inr ⟨e, hm, hid, hdir.2.2, Or.inr (Or.inl ⟨hdir.1, hdir.2.1⟩)⟩
          · obtain ⟨g, hg, hne, hK, hx⟩ := hgen
            exact Or.inr ⟨e, hm, hid, hx, Or.inr (Or.inr (Or.inl ⟨g, hg, hne, hK⟩))⟩
          · obtain ⟨y, hy, hK, hx⟩ := hyr
            exact Or.inr ⟨e, hm, hid, hx, Or.inr (Or.inr (Or.inr (Or.inl ⟨y, hy, hK⟩)))⟩
          · exact Or.inr ⟨e, hm, hid, hlang.2.2,
              Or.inr (Or.inr (Or.inr (Or.inr (Or.inl ⟨hlang.1, hlang.2.1⟩))))⟩
          · obtain ⟨c, hc, hne, hK, hx⟩ := hcty
            exact Or.inr ⟨e, hm, hid, hx,
              Or.inr (Or.inr (Or.inr (Or.inr (Or.inr ⟨c, hc, hne, hK⟩))))⟩
        · rintro (hx | ⟨e', he', hne, hx, hns⟩)
          · exact Or.inl (Or.inl (Or.inl (Or.inl (Or.inl (Or.inl hx)))))
          · rw [hm] at he'
            rw [show e' = e from (Option.some.inj he').symm] at hne hx hns
            rcases hns with hac | hdir | ⟨g, hg, hgne, hK⟩ | ⟨y, hy, hK⟩ | hlang |
              ⟨c, hc, hcne, hK⟩
            · exact Or.inl (Or.inl (Or.inl (Or.inl (Or.inl
                (Or.inr ⟨hac.1, hac.2, hx⟩)))))
            · exact Or.inl (Or.inl (Or.inl (Or.inl (Or.inr ⟨hdir.1, hdir.2, hx⟩))))
            · exact Or.inl (Or.inl (Or.inl (Or.inr ⟨g, hg, hgne, hK, hx⟩)))
            · exact Or.inl (Or.inl (Or.inr ⟨y, hy, hK, hx⟩))
            · exact Or.inl (Or.inr ⟨hlang.1, hlang.2, hx⟩)
            · exact Or.inr ⟨c, hc, hcne, hK, hx⟩

/-- Membership in a set after a record list is processed. -/
theorem mem_smembers_foldRecords (ms : List Record) (st : Store) (K x : String) :
    x ∈ (ms.foldl processRecord st).smembers K ↔
      x ∈ st.smembers K ∨ ∃ m, m ∈ ms ∧ setContrib m K x := by
  induction ms generalizing st with
  | nil => simp
  | cons m rest ih =>
      rw [List.foldl_cons, ih, mem_smembers_processRecord]
      constructor
      · rintro ((hx | hc) | ⟨m', hm', hc'⟩)
        · exact Or.inl hx
        · exact Or.inr ⟨m, List.mem_cons.mpr (Or.inl rfl), hc⟩
        · exact Or.inr ⟨m', List.mem_cons.mpr (Or.inr hm'), hc'⟩
      · rintro (hx | ⟨m', hm', hc'⟩)
        · exact Or.inl (Or.inl hx)
        · rcases List.mem_cons.mp hm' with hm0 | hm1
          · exact Or.inl (Or.inr (hm0 ▸ hc'))
          · exact Or.inr ⟨m', hm1, hc'⟩

theorem managedKey_of_ns (p s : String) (hp : p ∈ managedNs) :
    managedKey (p ++ s) = true := by
  unfold managedKey
  rw [List.any_eq_true]
  exact ⟨p, hp, keyHasNs_append p s⟩

/-- The fundamental set-index characterization: after a rebuild, a managed
set holds exactly the movie keys the scanned records contribute to it. -/
theorem mem_smembers_rebuild (ms : List Record) (st0 : Store) (K x : String)
    (hK : managedKey K = true) :
    x ∈ (rebuild ms st0).smembers K ↔ ∃ m, m ∈ ms ∧ setContrib m K x := by
  rw [rebuild, mem_smembers_foldRecords, smembers_cleanup st0 K hK]
  simp

/-! ## Extraction projections -/

theorem extract_fields (m : Record) (e : Extracted) (h : extract m = some e) :
    e.movieId = recordId m ∧
    e.year = parseYear (getField m "release_year") ∧
    e.genres = parseGenres (getField m "genres_list") ∧
    e.countries = parseCountries (getField m "production_countries") := by
  unfold extract at h
  split at h
  · rcases Option.some.inj h with rfl
    exact ⟨rfl, rfl, rfl, rfl⟩
  · exact Option.noConfusion h

theorem extract_movieId (m : Record) (e : Extracted) (h : extract m = some e) :
    e.movieId = recordId m := (extract_fields m e h).1

/-! ## Head-character disequality of namespace keys -/

theorem head?_append (p t : String) (c : Char) (hp : p.data.head? = some c) :
    (p ++ t).data.head? = some c := by
  rw [show (p ++ t).data = p.data ++ t.data from rfl]
  rcases hd : p.data with _ | ⟨c', cs⟩
  · rw [hd] at hp; exact Option.noConfusion hp
  · rw [hd] at hp
    simpa using hp

theorem string_ne_of_head (a b : String) (c d : Char)
    (ha : a.data.head? = some c) (hb : b.data.head? = some d) (hcd : c ≠ d) :
    a ≠ b := by
  intro h
  apply hcd
  have := congrArg (fun s => s.data.head?) h
  simp only at this
  rw [ha, hb] at this
  exact Option.some.inj this

/-- Specialized disequality for two namespace-plus-value keys. -/
theorem ns_key_ne (p q s t : String) (c d : Char)
    (hp : p.data.head? = some c) (hq : q.data.head? = some d) (hcd : c ≠ d) :
    p ++ s ≠ q ++ t :=
  string_ne_of_head _ _ c d (head?_append p s c hp) (head?_append q t d hq) hcd

/-! ## Per-namespace contribution characterizations -/

theorem setContrib_genre (m : Record) (g x : String) :
    setContrib m ("genre:" ++ g) x ↔
      ∃ e, extract m = some e ∧ e.movieId ≠ "" ∧ x = movieKey e.movieId ∧
        g ∈ e.genres ∧ g ≠ "" := by
  unfold setContrib nsMatch
  constructor
  · rintro ⟨e, hm, hid, hx, hac | hdir | ⟨g', hg', hne, hK⟩ | ⟨y, hy, hK⟩ | hlang |
      ⟨c, hc, hcne, hK⟩⟩
    · exact absurd hac.2 (ns_key_ne "genre:" "actor:" _ _ 'g' 'a'
        (by decide) (by decide) (by decide))
    · exact absurd hdir.2 (ns_key_ne "genre:" "director:" _ _ 'g' 'd'
        (by decide) (by decide) (by decide))
    · rw [show g = g' from string_append_right_inj "genre:" g g' hK] at *
      exact ⟨e, hm, hid, hx, hg', hne⟩
    · exact absurd hK (ns_key_ne "genre:" "year:" _ _ 'g' 'y'
        (by decide) (by decide) (by decide))
    · exact absurd hlang.2 (ns_key_ne "genre:" "language:" _ _ 'g' 'l'
        (by decide) (by decide) (by decide))
    · exact absurd hK (ns_key_ne "genre:" "country:" _ _ 'g' 'c'
        (by decide) (by decide) (by decide))
  · rintro ⟨e, hm, hid, hx, hg, hne⟩
    exact ⟨e, hm, hid, hx, Or.inr (Or.inr (Or.inl ⟨g, hg, hne, rfl⟩))⟩

theorem setContrib_year (m : Record) (y x : String) :
    setContrib m ("year:" ++ y) x ↔
      ∃ e, extract m = some e ∧ e.movieId ≠ "" ∧ x = movieKey e.movieId ∧
        e.year = some y := by
  unfold setContrib nsMatch
  constructor
  · rintro ⟨e, hm, hid, hx, hac | hdir | ⟨g', hg', hne, hK⟩ | ⟨y', hy, hK⟩ | hlang |
      ⟨c, hc, hcne, hK⟩⟩
    · exact absurd hac.2 (ns_key_ne "year:" "actor:" _ _ 'y' 'a'
        (by decide) (by decide) (by decide))
    · exact absurd hdir.2 (ns_key_ne "year:" "director:" _ _ 'y' 'd'
        (by decide) (by decide) (by decide))
    · exact absurd hK (ns_key_ne "year:" "genre:" _ _ 'y' 'g'
        (by decide) (by decide) (by decide))
    · rw [show y = y' from string_append_right_inj "year:" y y' hK] at *
      exact ⟨e, hm, hid, hx, hy⟩
    · exact absurd hlang.2 (ns_key_ne "year:" "language:" _ _ 'y' 'l'
        (by decide) (by decide) (by decide))
    · exact absurd hK (ns_key_ne "year:" "country:" _ _ 'y' 'c'
        (by decide) (by decide) (by decide))
  · rintro ⟨e, hm, hid, hx, hy⟩
    exact ⟨e, hm, hid, hx, Or.inr (Or.inr (Or.inr (Or.inl ⟨y, hy, rfl⟩)))⟩

theorem setContrib_actor (m : Record) (a x : String) :
    setContrib m ("actor:" ++ a) x ↔
      ∃ e, extract m = some e ∧ e.movieId ≠ "" ∧ x = movieKey e.movieId ∧
        e.mainCast = a ∧ a ≠ "" := by
  unfold setContrib nsMatch
  constructor
  · rintro ⟨e, hm, hid, hx, hac | hdir | ⟨g', hg', hne, hK⟩ | ⟨y', hy, hK⟩ | hlang |
      ⟨c, hc, hcne, hK⟩⟩
    · obtain ⟨hne, hK⟩ := hac
      rw [show a = e.mainCast from string_append_right_inj "actor:" a e.mainCast hK] at *
      exact ⟨e, hm, hid, hx, rfl, hne⟩
    · exact absurd hdir.2 (ns_key_ne "actor:" "director:" _ _ 'a' 'd'
        (by decide) (by decide) (by decide))
    · exact absurd hK (ns_key_ne "actor:" "genre:" _ _ 'a' 'g'
        (by decide) (by decide) (by decide))
    · exact absurd hK (ns_key_ne "actor:" "year:" _ _ 'a' 'y'
        (by decide) (by decide) (by decide))
    · exact absurd hlang.2 (ns_key_ne "actor:" "language:" _ _ 'a' 'l'
        (by decide) (by decide) (by decide))
    · exact absurd hK (ns_key_ne "actor:" "country:" _ _ 'a' 'c'
        (by decide) (by decide) (by decide))
  · rintro ⟨e, hm, hid, hx, hmc, hne⟩
    exact ⟨e, hm, hid, hx, Or.inl ⟨hmc ▸ hne, hmc ▸ rfl⟩⟩

/-! ## Sorted-set score tracking through a rebuild -/

theorem zsets_addActor (e : Extracted) (st : Store) : (addActor e st).zsets = st.zsets := by
  unfold addActor; split <;> rfl

theorem zsets_addDirector (e : Extracted) (st : Store) :
    (addDirector e st).zsets = st.zsets := by
  unfold addDirector; split <;> rfl

theorem zsets_addLanguage (e : Extracted) (st : Store) :
    (addLanguage e st).zsets = st.zsets := by
  unfold addLanguage; split <;> rfl

theorem zsets_addYear (e : Extracted) (st : Store) : (addYear e st).zsets = st.zsets := by
  unfold addYear; cases e.year <;> rfl

theorem zsets_addCountries (e : Extracted) (st : Store) :
    (addCountries e st).zsets = st.zsets := by
  unfold addCountries
  generalize e.countries = cs
  induction cs generalizing st with
  | nil => rfl
  | cons c rest ih =>
      rw [List.foldl_cons]
      by_cases h : c = ""
      · rw [if_neg (fun hh => hh h), ih]
      · rw [if_pos h, ih, Store.zsets_sadd]

theorem Store.zscore_congr (st st' : Store) (h : st.zsets = st'.zsets) (k m : String) :
    st.zscore k m = st'.zscore k m := by
  unfold Store.zscore Store.zpairs
  rw [h]

theorem Store.zpairs_congr (st st' : Store) (h : st.zsets = st'.zsets) (k : String) :
    st.zpairs k = st'.zpairs k := by
  unfold Store.zpairs
  rw [h]

theorem zscore_addOneGenre_other (e : Extracted) (st : Store) (g zn x : String)
    (hx : x ≠ movieKey e.movieId) :
    (addOneGenre e st g).zscore zn x = st.zscore zn x := by
  unfold addOneGenre
  by_cases hg : g = ""
  · simp [hg]
  · rw [if_pos hg]
    by_cases hv : 0 < e.voteAvg
    · rw [if_pos hv, Store.zscore_zadd,
        if_neg (by rintro ⟨-, h⟩; exact hx h), Store.zscore_sadd]
    · rw [if_neg hv, Store.zscore_sadd]

theorem zscore_addOneGenre_ne (e : Extracted) (st : Store) (g g' m : String)
    (hne : g ≠ g') :
    (addOneGenre e st g').zscore ("top_rated:" ++ g) m = st.zscore ("top_rated:" ++ g) m := by
  unfold addOneGenre
  by_cases hg : g' = ""
  · simp [hg]
  · rw [if_pos hg]
    by_cases hv : 0 < e.voteAvg
    · rw [if_pos hv, Store.zscore_zadd,
        if_neg (by
          rintro ⟨h, -⟩
          exact hne (string_append_right_inj "top_rated:" g g' h)), Store.zscore_sadd]
    · rw [if_neg hv, Store.zscore_sadd]

theorem zscore_addOneGenre_otherkey (e : Extracted) (st : Store) (g' zn m : String)
    (hk : ∀ g, zn ≠ "top_rated:" ++ g) :
    (addOneGenre e st g').zscore zn m = st.zscore zn m := by
  unfold addOneGenre
  by_cases hg : g' = ""
  · simp [hg]
  · rw [if_pos hg]
    by_cases hv : 0 < e.voteAvg
    · rw [if_pos hv, Store.zscore_zadd, if_neg (by rintro ⟨h, -⟩; exact hk g' h),
        Store.zscore_sadd]
    · rw [if_neg hv, Store.zscore_sadd]

theorem zscore_foldGenres_other (e : Extracted) (gs : List String) (st : Store)
    (zn x : String) (hx : x ≠ movieKey e.movieId) :
    ((gs.foldl (addOneGenre e) st).zscore zn x) = st.zscore zn x := by
  induction gs generalizing st with
  | nil => rfl
  | cons g rest ih => rw [List.foldl_cons, ih, zscore_addOneGenre_other e st g zn x hx]

theorem zscore_foldGenres_otherkey (e : Extracted) (gs : List String) (st : Store)
    (zn m : String) (hk : ∀ g, zn ≠ "top_rated:" ++ g) :
    ((gs.foldl (addOneGenre e) st).zscore zn m) = st.zscore zn m := by
  induction gs generalizing st with
  | nil => rfl
  | cons g rest ih => rw [List.foldl_cons, ih, zscore_addOneGenre_otherkey e st g zn m hk]

theorem zscore_foldGenres_notin (e : Extracted) (gs : List String) (st : Store)
    (g m : String) (hg : g ∉ gs) :
    ((gs.foldl (addOneGenre e) st).zscore ("top_rated:" ++ g) m) =
      st.zscore ("top_rated:" ++ g) m := by
  induction gs generalizing st with
  | nil => rfl
  | cons g0 rest ih =>
      rw [List.foldl_cons, ih _ (fun h => hg (List.mem_cons.mpr (Or.inr h))),
        zscore_addOneGenre_ne e st g g0 m
          (fun h => hg (List.mem_cons.mpr (Or.inl h)))]

theorem zscore_foldGenres_est (e : Extracted) (gs : List String) (st : Store)
    (g : String) (hg : g ∈ gs) (hgne : g ≠ "") (hv : 0 < e.voteAvg) :
    ((gs.foldl (addOneGenre e) st).zscore ("top_rated:" ++ g) (movieKey e.movieId)) =
      some e.voteAvg := by
  induction gs generalizing st with
  | nil => exact absurd hg (List.not_mem_nil g)
  | cons g0 rest ih =>
      rw [List.foldl_cons]
      by_cases hrest : g ∈ rest
      · exact ih _ hrest
      · have hg0 : g0 = g := by
          rcases List.mem_cons.mp hg with h | h
          · exact h.symm
          · exact absurd h hrest
        subst hg0
        rw [zscore_foldGenres_notin e rest _ g0 _ hrest]
        unfold addOneGenre
        rw [if_pos hgne, if_pos hv, Store.zscore_zadd, if_pos ⟨rfl, rfl⟩]

theorem zsetName_inj (f f' : NumField) (h : zsetName f = zsetName f') : f = f' := by
  cases f <;> cases f' <;> first | rfl | exact absurd h (by decide)

theorem zsetName_head (f : NumField) : (zsetName f).data.head? = some 'z' := by
  cases f <;> decide

theorem zscore_foldZ_other (e : Extracted) (fs : List NumField) (st : Store)
    (zn x : String) (hx : x ≠ movieKey e.movieId) :
    ((fs.foldl
        (fun st f =>
          if 0 < fieldVal e f then st.zadd (zsetName f) (movieKey e.movieId) (fieldVal e f)
          else st) st).zscore zn x) = st.zscore zn x := by
  induction fs generalizing st with
  | nil => rfl
  | cons f rest ih =>
      rw [List.foldl_cons, ih]
      by_cases hv : 0 < fieldVal e f
      · rw [if_pos hv, Store.zscore_zadd, if_neg (by rintro ⟨-, h⟩; exact hx h)]
      · rw [if_neg hv]

theorem zscore_foldZ_otherkey (e : Extracted) (fs : List NumField) (st : Store)
    (zn m : String) (hk : ∀ f, zn ≠ zsetName f) :
    ((fs.foldl
        (fun st f =>
          if 0 < fieldVal e f then st.zadd (zsetName f) (movieKey e.movieId) (fieldVal e f)
          else st) st).zscore zn m) = st.zscore zn m := by
  induction fs generalizing st with
  | nil => rfl
  | cons f rest ih =>
      rw [List.foldl_cons, ih]
      by_cases hv : 0 < fieldVal e f
      · rw [if_pos hv, Store.zscore_zadd, if_neg (by rintro ⟨h, -⟩; exact hk f h)]
      · rw [if_neg hv]

theorem zscore_foldZ_notin (e : Extracted) (fs : List NumField) (st : Store)
    (f : NumField) (m : String) (hf : f ∉ fs) :
    ((fs.foldl
        (fun st f' =>
          if 0 < fieldVal e f' then
            st.zadd (zsetName f') (movieKey e.movieId) (fieldVal e f')
          else st) st).zscore (zsetName f) m) = st.zscore (zsetName f) m := by
  induction fs generalizing st with
  | nil => rfl
  | cons f0 rest ih =>
      rw [List.foldl_cons, ih _ (fun h => hf (List.mem_cons.mpr (Or.inr h)))]
      by_cases hv : 0 < fieldVal e f0
      · rw [if_pos hv, Store.zscore_zadd,
          if_neg (by
            rintro ⟨h, -⟩
            exact hf (List.mem_cons.mpr (Or.inl (zsetName_inj f f0 h))))]
      · rw [if_neg hv]

theorem zscore_foldZ_est (e : Extracted) (fs : List NumField) (st : Store)
    (f : NumField) (hf : f ∈ fs) (hnd : fs.Nodup) :
    ((fs.foldl
        (fun st f' =>
          if 0 < fieldVal e f' then
            st.zadd (zsetName f') (movieKey e.movieId) (fieldVal e f')
          else st) st).zscore (zsetName f) (movieKey e.movieId)) =
      if 0 < fieldVal e f then some (fieldVal e f)
      else st.zscore (zsetName f) (movieKey e.movieId) := by
  induction fs generalizing st with
  | nil => exact absurd hf (List.not_mem_nil f)
  | cons f0 rest ih =>
      obtain ⟨hf0, hndr⟩ := List.nodup_cons.mp hnd
      rw [List.foldl_cons]
      rcases List.mem_cons.mp hf with hff0 | hfr
      · subst hff0
        rw [zscore_foldZ_notin e rest _ f _ hf0]
        by_cases hv : 0 < fieldVal e f
        · rw [if_pos hv, if_pos hv, Store.zscore_zadd, if_pos ⟨rfl, rfl⟩]
        · rw [if_neg hv, if_neg hv]
      · have hne : f ≠ f0 := fun h => hf0 (h ▸ hfr)
        rw [ih _ hfr hndr]
        by_cases hv0 : 0 < fieldVal e f0
        · rw [if_pos hv0, Store.zscore_zadd,
            if_neg (show ¬(zsetName f = zsetName f0 ∧
                movieKey e.movieId = movieKey e.movieId) from
              fun hc => hne (zsetName_inj f f0 hc.1))]
        · rw [if_neg hv0]

theorem zscore_foldZ_inv (e : Extracted) (fs : List NumField) (st : Store)
    (f : NumField) (k : String) (v : Rat)
    (h : ((fs.foldl
        (fun st f' =>
          if 0 < fieldVal e f' then
            st.zadd (zsetName f') (movieKey e.movieId) (fieldVal e f')
          else st) st).zscore (zsetName f) k) = some v) :
    st.zscore (zsetName f) k = some v ∨
      (f ∈ fs ∧ k = movieKey e.movieId ∧ v = fieldVal e f ∧ 0 < fieldVal e f) := by
  induction fs generalizing st with
  | nil => exact Or.inl h
  | cons f0 rest ih =>
      rw [List.foldl_cons] at h
      rcases ih _ h with h' | ⟨hfr, hk, hv, hpos⟩
      · by_cases hv0 : 0 < fieldVal e f0
        · rw [if_pos hv0, Store.zscore_zadd] at h'
          by_cases hc : zsetName f = zsetName f0 ∧ k = movieKey e.movieId
          · rw [if_pos hc] at h'
            have hff0 : f = f0 := zsetName_inj f f0 hc.1
            exact Or.inr ⟨List.mem_cons.mpr (Or.inl hff0), hc.2,
              (Option.some.inj h').symm.trans (by rw [hff0]), hff0 ▸ hv0⟩
          · rw [if_neg hc] at h'
            exact Or.inl h'
        · rw [if_neg hv0] at h'
          exact Or.inl h'
      · exact Or.inr ⟨List.mem_cons.mpr (Or.inr hfr), hk, hv, hpos⟩

theorem movieKey_inj (a b : String) (h : movieKey a = movieKey b) : a = b :=
  string_append_right_inj "movie:" a b h

theorem numFields_mem (f : NumField) : f ∈ numFields := by cases f <;> decide

theorem numFields_nodup : numFields.Nodup := by decide

theorem managedKey_zsetName (f : NumField) : managedKey (zsetName f) = true := by
  cases f <;> decide

theorem topRated_ne_zsetName (g : String) (f : NumField) :
    "top_rated:" ++ g ≠ zsetName f :=
  string_ne_of_head _ _ 't' 'z' (head?_append "top_rated:" g 't' (by decide))
    (zsetName_head f) (by decide)

theorem zscore_processRecord_other (st : Store) (m : Record) (zn x : String)
    (hx : ∀ e, extract m = some e → x ≠ movieKey e.movieId) :
    (processRecord st m).zscore zn x = st.zscore zn x := by
  cases hm : extract m with
  | none =>
      have hpr : processRecord st m = st := by unfold processRecord; rw [hm]
      rw [hpr]
  | some e =>
      have hpr : processRecord st m = indexRecord e st := by unfold processRecord; rw [hm]
      rw [hpr]
      unfold indexRecord
      by_cases hid : e.movieId = ""
      · rw [if_neg (fun hh => hh hid)]
      · rw [if_pos hid]
        unfold addZsets
        rw [zscore_foldZ_other e numFields _ zn x (hx e hm),
          Store.zscore_congr _ _ (zsets_addCountries e _) zn x,
          Store.zscore_congr _ _ (zsets_addLanguage e _) zn x,
          Store.zscore_congr _ _ (zsets_addYear e _) zn x]
        unfold addGenres
        rw [zscore_foldGenres_other e e.genres _ zn x (hx e hm),
          Store.zscore_congr _ _ (zsets_addDirector e _) zn x,
          Store.zscore_congr _ _ (zsets_addActor e _) zn x]

theorem zscore_processRecord_est_top (st : Store) (m : Record) (e : Extracted)
    (g : String) (hm : extract m = some e) (hid : e.movieId ≠ "") (hg : g ∈ e.genres)
    (hgne : g ≠ "") (hv : 0 < e.voteAvg) :
    (processRecord st m).zscore ("top_rated:" ++ g) (movieKey e.movieId) =
      some e.voteAvg := by
  have hpr : processRecord st m = indexRecord e st := by unfold processRecord; rw [hm]
  rw [hpr]
  unfold indexRecord
  rw [if_pos hid]
  unfold addZsets
  rw [zscore_foldZ_otherkey e numFields _ _ _ (topRated_ne_zsetName g),
    Store.zscore_congr _ _ (zsets_addCountries e _) _ _,
    Store.zscore_congr _ _ (zsets_addLanguage e _) _ _,
    Store.zscore_congr _ _ (zsets_addYear e _) _ _]
  unfold addGenres
  exact zscore_foldGenres_est e e.genres _ g hg hgne hv

theorem zscore_processRecord_est_field (st : Store) (m : Record) (e : Extracted)
    (f : NumField) (hm : extract m = some e) (hid : e.movieId ≠ "")
    (hv : 0 < fieldVal e f) :
    (processRecord st m).zscore (zsetName f) (movieKey e.movieId) =
      some (fieldVal e f) := by
  have hpr : processRecord st m = indexRecord e st := by unfold processRecord; rw [hm]
  rw [hpr]
  unfold indexRecord
  rw [if_pos hid]
  unfold addZsets
  rw [zscore_foldZ_est e numFields _ f (numFields_mem f) numFields_nodup, if_pos hv]

theorem zscore_processRecord_inv_field (st : Store) (m : Record) (f : NumField)
    (k : String) (v : Rat)
    (h : (processRecord st m).zscore (zsetName f) k = some v) :
    st.zscore (zsetName f) k = some v ∨
      ∃ e, extract m = some e ∧ e.movieId ≠ "" ∧ k = movieKey e.movieId ∧
        v = fieldVal e f ∧ 0 < v := by
  cases hm : extract m with
  | none =>
      have hpr : processRecord st m = st := by unfold processRecord; rw [hm]
      rw [hpr] at h
      exact Or.inl h
  | some e =>
      have hpr : processRecord st m = indexRecord e st := by unfold processRecord; rw [hm]
      rw [hpr] at h
      unfold indexRecord at h
      by_cases hid : e.movieId = ""
      · rw [if_neg (fun hh => hh hid)] at h
        exact Or.inl h
      · rw [if_pos hid] at h
        unfold addZsets at h
        rcases zscore_foldZ_inv e numFields _ f k v h with h' | ⟨hf, hk, hfv, hpos⟩
        · rw [Store.zscore_congr _ _ (zsets_addCountries e _) _ _,
            Store.zscore_congr _ _ (zsets_addLanguage e _) _ _,
            Store.zscore_congr _ _ (zsets_addYear e _) _ _] at h'
          unfold addGenres at h'
          rw [zscore_foldGenres_otherkey e e.genres _ _ _
              (fun g' hg' => topRated_ne_zsetName g' f hg'.symm),
            Store.zscore_congr _ _ (zsets_addDirector e _) _ _,
            Store.zscore_congr _ _ (zsets_addActor e _) _ _] at h'
          exact Or.inl h'
        · exact Or.inr ⟨e, rfl, hid, hk, hfv, by rw [hfv]; exact hpos⟩

theorem zscore_foldRecords_other (ms : List Record) (st : Store) (zn x : String)
    (h : ∀ m' ∈ ms, ∀ e, extract m' = some e → x ≠ movieKey e.movieId) :
    ((ms.foldl processRecord st).zscore zn x) = st.zscore zn x := by
  induction ms generalizing st with
  | nil => rfl
  | cons m0 rest ih =>
      rw [List.foldl_cons, ih _ (fun m' hm' => h m' (List.mem_cons.mpr (Or.inr hm'))),
        zscore_processRecord_other st m0 zn x (h m0 (List.mem_cons.mpr (Or.inl rfl)))]

/-- After a rebuild with pairwise-distinct record ids, a contributing
record's scoped-ranking entry carries exactly its own rating. -/
theorem zscore_topRated_rebuild (ms : List Record) (st0 : Store) (m : Record)
    (e : Extracted) (g : String) (hnd : (ms.map recordId).Nodup) (hm : m ∈ ms)
    (he : extract m = some e) (hid : e.movieId ≠ "") (hg : g ∈ e.genres)
    (hgne : g ≠ "") (hv : 0 < e.voteAvg) :
    (rebuild ms st0).zscore ("top_rated:" ++ g) (movieKey e.movieId) =
      some e.voteAvg := by
  unfold rebuild
  generalize cleanup st0 = st
  induction ms generalizing st with
  | nil => exact absurd hm (List.not_mem_nil m)
  | cons m0 rest ih =>
      obtain ⟨hnotin, hndr⟩ := List.nodup_cons.mp hnd
      rw [List.foldl_cons]
      rcases List.mem_cons.mp hm with hm0 | hmr
      · subst hm0
        rw [zscore_foldRecords_other rest _ _ _ ?_,
          zscore_processRecord_est_top st m e g he hid hg hgne hv]
        intro m' hm' e' he' hcontra
        have h1 : e.movieId = e'.movieId := movieKey_inj _ _ hcontra
        have h2 : recordId m = recordId m' := by
          rw [← extract_movieId m e he, ← extract_movieId m' e' he', h1]
        exact hnotin (h2 ▸ List.mem_map_of_mem recordId hm')
      · exact ih hndr hmr (processRecord st m0)

/-- Backward direction machinery for the global numeric indexes. -/
theorem zscore_zset_foldRecs_bwd (ms : List Record) (st : Store) (m : Record)
    (e : Extracted) (f : NumField) (hnd : (ms.map recordId).Nodup) (hm : m ∈ ms)
    (he : extract m = some e) (hid : e.movieId ≠ "") (hv : 0 < fieldVal e f) :
    ((ms.foldl processRecord st).zscore (zsetName f) (movieKey e.movieId)) =
      some (fieldVal e f) := by
  induction ms generalizing st with
  | nil => exact absurd hm (List.not_mem_nil m)
  | cons m0 rest ih =>
      obtain ⟨hnotin, hndr⟩ := List.nodup_cons.mp hnd
      rw [List.foldl_cons]
      rcases List.mem_cons.mp hm with hm0 | hmr
      · subst hm0
        rw [zscore_foldRecords_other rest _ _ _ ?_,
          zscore_processRecord_est_field st m e f he hid hv]
        intro m' hm' e' he' hcontra
        have h1 : e.movieId = e'.movieId := movieKey_inj _ _ hcontra
        have h2 : recordId m = recordId m' := by
          rw [← extract_movieId m e he, ← extract_movieId m' e' he', h1]
        exact hnotin (h2 ▸ List.mem_map_of_mem recordId hm')
      · exact ih (processRecord st m0) hndr hmr

theorem zscore_zset_foldRecs_fwd (ms : List Record) (st : Store) (f : NumField)
    (k : String) (v : Rat)
    (h : ((ms.foldl processRecord st).zscore (zsetName f) k) = some v) :
    st.zscore (zsetName f) k = some v ∨
      ∃ m, m ∈ ms ∧ ∃ e, extract m = some e ∧ e.movieId ≠ "" ∧
        k = movieKey e.movieId ∧ v = fieldVal e f ∧ 0 < v := by
  induction ms generalizing st with
  | nil => exact Or.inl h
  | cons m0 rest ih =>
      rw [List.foldl_cons] at h
      rcases ih _ h with h' | ⟨m', hm', hc⟩
      · rcases zscore_processRecord_inv_field st m0 f k v h' with h'' | ⟨e, he, hc⟩
        · exact Or.inl h''
        · exact Or.inr ⟨m0, List.mem_cons.mpr (Or.inl rfl), e, he, hc⟩
      · exact Or.inr ⟨m', List.mem_cons.mpr (Or.inr hm'), hc⟩

/-- The fundamental global-numeric-index characterization: after a rebuild
with pairwise-distinct record ids, the sorted set `zsetName f` scores
member `k` with `v` exactly when some scanned record contributes `k` with
coerced field value `v > 0`. -/
theorem zscore_zset_rebuild (ms : List Record) (st0 : Store) (f : NumField)
    (k : String) (v : Rat) (hnd : (ms.map recordId).Nodup) :
    (rebuild ms st0).zscore (zsetName f) k = some v ↔
      ∃ m, m ∈ ms ∧ ∃ e, extract m = some e ∧ e.movieId ≠ "" ∧
        k = movieKey e.movieId ∧ v = fieldVal e f ∧ 0 < v := by
  constructor
  · intro h
    unfold rebuild at h
    rcases zscore_zset_foldRecs_fwd ms _ f k v h with h' | hc
    · rw [zscore_cleanup st0 _ _ (managedKey_zsetName f)] at h'
      exact Option.noConfusion h'
    · exact hc
  · rintro ⟨m, hm, e, he, hid, hk, hv, hpos⟩
    subst hk
    subst hv
    exact zscore_zset_foldRecs_bwd ms _ m e f hnd hm he hid hpos

/-! ## Sorted sets never hold duplicate members -/

theorem Store.zpairs_sadd (st : Store) (k m : String) (k' : String) :
    (st.sadd k m).zpairs k' = st.zpairs k' := rfl

theorem map_fst_mem_setUpd {κ β : Type} [DecidableEq κ] (l : List (κ × β)) (k : κ)
    (f : Option β → β) (x : κ) :
    x ∈ (setUpd l k f).map Prod.fst ↔ x ∈ l.map Prod.fst ∨ x = k := by
  induction l with
  | nil => simp [setUpd]
  | cons kv rest ih =>
      obtain ⟨a, v⟩ := kv
      by_cases hka : k = a
      · subst hka
        simp [setUpd]
        tauto
      · rw [show setUpd ((a, v) :: rest) k f = (a, v) :: setUpd rest k f by
          simp [setUpd, hka]]
        simp only [List.map_cons, List.mem_cons, ih]
        tauto

theorem map_fst_nodup_setUpd {κ β : Type} [DecidableEq κ] (l : List (κ × β)) (k : κ)
    (f : Option β → β) (h : (l.map Prod.fst).Nodup) :
    ((setUpd l k f).map Prod.fst).Nodup := by
  induction l with
  | nil => simp [setUpd]
  | cons kv rest ih =>
      obtain ⟨a, v⟩ := kv
      rw [List.map_cons, List.nodup_cons] at h
      by_cases hka : k = a
      · subst hka
        simpa [setUpd] using h
      · rw [show setUpd ((a, v) :: rest) k f = (a, v) :: setUpd rest k f by
          simp [setUpd, hka]]
        rw [List.map_cons, List.nodup_cons]
        refine ⟨?_, ih h.2⟩
        intro hmem
        rcases (map_fst_mem_setUpd rest k f a).mp hmem with h' | h'
        · exact h.1 h'
        · exact hka h'.symm

theorem znodup_zadd (st : Store) (k m : String) (v : Rat) (k' : String)
    (h : ((st.zpairs k').map Prod.fst).Nodup) :
    (((st.zadd k m v).zpairs k').map Prod.fst).Nodup := by
  rw [Store.zpairs_zadd]
  by_cases hk : k' = k
  · subst hk
    rw [if_pos rfl]
    exact map_fst_nodup_setUpd _ _ _ h
  · rw [if_neg hk]
    exact h

theorem znodup_addOneGenre (e : Extracted) (st : Store) (g k : String)
    (h : ((st.zpairs k).map Prod.fst).Nodup) :
    (((addOneGenre e st g).zpairs k).map Prod.fst).Nodup := by
  unfold addOneGenre
  by_cases hg : g = ""
  · simpa [hg] using h
  · rw [if_pos hg]
    by_cases hv : 0 < e.voteAvg
    · rw [if_pos hv]
      exact znodup_zadd _ _ _ _ _ (by rw [Store.zpairs_sadd]; exact h)
    · rw [if_neg hv, Store.zpairs_sadd]
      exact h

theorem znodup_foldGenres (e : Extracted) (gs : List String) (st : Store) (k : String)
    (h : ((st.zpairs k).map Prod.fst).Nodup) :
    (((gs.foldl (addOneGenre e) st).zpairs k).map Prod.fst).Nodup := by
  induction gs generalizing st with
  | nil => exact h
  | cons g rest ih => exact ih _ (znodup_addOneGenre e st g k h)

theorem znodup_foldZ (e : Extracted) (fs : List NumField) (st : Store) (k : String)
    (h : ((st.zpairs k).map Prod.fst).Nodup) :
    (((fs.foldl
        (fun st f =>
          if 0 < fieldVal e f then st.zadd (zsetName f) (movieKey e.movieId) (fieldVal e f)
          else st) st).zpairs k).map Prod.fst).Nodup := by
  induction fs generalizing st with
  | nil => exact h
  | cons f rest ih =>
      refine ih _ ?_
      show (((if 0 < fieldVal e f then
          st.zadd (zsetName f) (movieKey e.movieId) (fieldVal e f)
        else st).zpairs k).map Prod.fst).Nodup
      by_cases hv : 0 < fieldVal e f
      · rw [if_pos hv]
        exact znodup_zadd _ _ _ _ _ h
      · rw [if_neg hv]
        exact h

theorem znodup_processRecord (st : Store) (m : Record) (k : String)
    (h : ((st.zpairs k).map Prod.fst).Nodup) :
    (((processRecord st m).zpairs k).map Prod.fst).Nodup := by
  cases hm : extract m with
  | none =>
      have hpr : processRecord st m = st := by unfold processRecord; rw [hm]
      rw [hpr]; exact h
  | some e =>
      have hpr : processRecord st m = indexRecord e st := by unfold processRecord; rw [hm]
      rw [hpr]
      unfold indexRecord
      by_cases hid : e.movieId = ""
      · rw [if_neg (fun hh => hh hid)]; exact h
      · rw [if_pos hid]
        unfold addZsets
        refine znodup_foldZ e numFields _ k ?_
        rw [Store.zpairs_congr _ _ (zsets_addCountries e _) k,
          Store.zpairs_congr _ _ (zsets_addLanguage e _) k,
          Store.zpairs_congr _ _ (zsets_addYear e _) k]
        unfold addGenres
        refine znodup_foldGenres e e.genres _ k ?_
        rw [Store.zpairs_congr _ _ (zsets_addDirector e _) k,
          Store.zpairs_congr _ _ (zsets_addActor e _) k]
        exact h

theorem zpairs_cleanup (st : Store) (k : String) (h : managedKey k = true) :
    (cleanup st).zpairs k = [] := by
  unfold cleanup Store.zpairs
  rw [show (⟨st.sets.filter _, st.zsets.filter _⟩ : Store).zsets = st.zsets.filter _ from rfl,
    alookup_none_of_filter]
  · rfl
  · intro v; simp [h]

theorem znodup_rebuild (ms : List Record) (st0 : Store) (k : String)
    (hk : managedKey k = true) :
    (((rebuild ms st0).zpairs k).map Prod.fst).Nodup := by
  unfold rebuild
  have h0 : (((cleanup st0).zpairs k).map Prod.fst).Nodup := by
    rw [zpairs_cleanup st0 k hk]; exact List.nodup_nil
  generalize cleanup st0 = st at h0 ⊢
  induction ms generalizing st with
  | nil => exact h0
  | cons m rest ih => exact ih _ (znodup_processRecord st m k h0)

/-! ## Range queries read exactly the stored scores -/

theorem alookup_eq_some_iff_mem {κ β : Type} [DecidableEq κ] (l : List (κ × β))
    (hnd : (l.map Prod.fst).Nodup) (k : κ) (v : β) :
    alookup l k = some v ↔ (k, v) ∈ l := by
  induction l with
  | nil => simp [alookup]
  | cons kv rest ih =>
      obtain ⟨a, b⟩ := kv
      rw [List.map_cons, List.nodup_cons] at hnd
      show (if k = a then some b else alookup rest k) = some v ↔ _
      by_cases hka : k = a
      · subst hka
        rw [if_pos rfl]
        simp only [List.mem_cons]
        constructor
        · intro h
          have hbv : b = v := Option.some.inj h
          exact Or.inl (by rw [hbv])
        · rintro (h | h)
          · rw [((Prod.mk.injEq _ _ _ _).mp h).2]
          · exact absurd (List.mem_map_of_mem Prod.fst h) (by simpa using hnd.1)
      · rw [if_neg hka, ih hnd.2]
        simp only [List.mem_cons]
        constructor
        · exact Or.inr
        · rintro (h | h)
          · exact absurd ((Prod.mk.injEq _ _ _ _).mp h).1 hka
          · exact h

theorem mem_zrangebyscore (st : Store) (k : String) (lo hi : Bound) (x : String)
    (hnd : ((st.zpairs k).map Prod.fst).Nodup) :
    x ∈ zrangebyscore st k lo hi ↔
      ∃ v, st.zscore k x = some v ∧ loLe lo v = true ∧ hiGe hi v = true := by
  unfold zrangebyscore
  constructor
  · intro hx
    rcases List.mem_map.mp hx with ⟨p, hp, hpx⟩
    obtain ⟨p1, p2⟩ := p
    rcases List.mem_filter.mp hp with ⟨hmem, hb⟩
    rw [Bool.and_eq_true] at hb
    have hzp : (p1, p2) ∈ st.zpairs k := (mem_sortBy _ _ _).mp hmem
    refine ⟨p2, ?_, hb.1, hb.2⟩
    rw [show x = p1 from hpx.symm]
    exact (alookup_eq_some_iff_mem _ hnd p1 p2).mpr hzp
  · rintro ⟨v, hv, hlo, hhi⟩
    refine List.mem_map.mpr ⟨(x, v), List.mem_filter.mpr ⟨?_, ?_⟩, rfl⟩
    · exact (mem_sortBy _ _ _).mpr ((alookup_eq_some_iff_mem _ hnd x v).mp hv)
    · rw [Bool.and_eq_true]
      exact ⟨hlo, hhi⟩

/-! ## Miscellaneous helpers -/

theorem option_eq_of_some_iff {α : Type} (a b : Option α)
    (h : ∀ v, a = some v ↔ b = some v) : a = b := by
  cases a with
  | some v => exact ((h v).mp rfl).symm
  | none =>
      cases b with
      | none => rfl
      | some w => exact absurd ((h w).mpr rfl) (fun hc => Option.noConfusion hc)

theorem pairwise_take_drop {α : Type} (r : α → α → Prop) (l : List α) (n : Nat)
    (h : l.Pairwise r) : ∀ x ∈ l.take n, ∀ y ∈ l.drop n, r x y := by
  rw [← List.take_append_drop n l] at h
  exact (List.pairwise_append.mp h).2.2

/-! ## Order lemmas for the sort relations -/

theorem charListLe_cons_iff (a b : Char) (as bs : List Char) :
    charListLe (a :: as) (b :: bs) = true ↔
      a < b ∨ (a = b ∧ charListLe as bs = true) := by
  simp [charListLe]

theorem charListLe_trans :
    ∀ as bs cs, charListLe as bs = true → charListLe bs cs = true →
      charListLe as cs = true
  | [], _, _, _, _ => rfl
  | _ :: _, [], _, h, _ => by simp [charListLe] at h
  | _ :: _, _ :: _, [], _, h => by simp [charListLe] at h
  | a :: as, b :: bs, c :: cs, hab, hbc => by
      rcases (charListLe_cons_iff a b as bs).mp hab with h1 | ⟨h1, h1'⟩ <;>
        rcases (charListLe_cons_iff b c bs cs).mp hbc with h2 | ⟨h2, h2'⟩
      · exact (charListLe_cons_iff a c as cs).mpr (Or.inl (lt_trans h1 h2))
      · exact (charListLe_cons_iff a c as cs).mpr (Or.inl (h2 ▸ h1))
      · exact (charListLe_cons_iff a c as cs).mpr (Or.inl (h1 ▸ h2))
      · exact (charListLe_cons_iff a c as cs).mpr
          (Or.inr ⟨h1.trans h2, charListLe_trans as bs cs h1' h2'⟩)

theorem charListLe_total :
    ∀ as bs, charListLe as bs = false → charListLe bs as = true
  | [], _, h => by simp [charListLe] at h
  | _ :: _, [], _ => rfl
  | a :: as, b :: bs, h => by
      have h' : ¬(a < b ∨ (a = b ∧ charListLe as bs = true)) :=
        fun hh => by rw [(charListLe_cons_iff a b as bs).mpr hh] at h; exact
          Bool.noConfusion h
      push_neg at h'
      obtain ⟨hab, hcond⟩ := h'
      by_cases heq : a = b
      · refine (charListLe_cons_iff b a bs as).mpr (Or.inr ⟨heq.symm, ?_⟩)
        exact charListLe_total as bs (by
          rcases hb : charListLe as bs with _ | _
          · rfl
          · exact absurd hb (by simpa [heq] using hcond heq))
      · exact (charListLe_cons_iff b a bs as).mpr
          (Or.inl (lt_of_le_of_ne hab (fun hh => heq hh.symm)))

theorem strLe_trans (a b c : String) (h1 : strLe a b = true) (h2 : strLe b c = true) :
    strLe a c = true :=
  charListLe_trans a.data b.data c.data h1 h2

theorem strLe_total (a b : String) (h : strLe a b = false) : strLe b a = true :=
  charListLe_total a.data b.data h

theorem scoreDesc_iff (a b : String × Rat) : scoreDesc a b = true ↔ b.2 ≤ a.2 := by
  simp [scoreDesc]

theorem scoreDesc_trans (a b c : String × Rat) (h1 : scoreDesc a b = true)
    (h2 : scoreDesc b c = true) : scoreDesc a c = true :=
  (scoreDesc_iff a c).mpr (le_trans ((scoreDesc_iff b c).mp h2) ((scoreDesc_iff a b).mp h1))

theorem scoreDesc_total (a b : String × Rat) (h : scoreDesc a b = false) :
    scoreDesc b a = true := by
  refine (scoreDesc_iff b a).mpr (le_of_not_le ?_)
  intro hc
  rw [(scoreDesc_iff a b).mpr hc] at h
  exact Bool.noConfusion h

/-! ## Recovering the bucket key from a scanned key -/

theorem strLeads_drop :
    ∀ ps ks, strLeads ps ks = true → ps ++ ks.drop ps.length = ks
  | [], ks, _ => by simp
  | p :: ps, [], h => by simp [strLeads] at h
  | p :: ps, k :: ks, h => by
      have h' := (by simpa [strLeads] using h : p = k ∧ strLeads ps ks = true)
      simp only [List.length_cons, List.drop_succ_cons, List.cons_append]
      rw [h'.1, strLeads_drop ps ks h'.2]

/-- A key matched by the scan pattern `p*` is `p` followed by its stripped
name. -/
theorem ns_strip (p k : String) (h : keyHasNs p k = true) :
    p ++ strDropChars k p.data.length = k := by
  have hd : p.data ++ k.data.drop p.data.length = k.data := strLeads_drop p.data k.data h
  refine string_ext _ _ ?_
  rw [show (p ++ strDropChars k p.data.length).data =
      p.data ++ k.data.drop p.data.length from rfl]
  exact hd

theorem nodup_map_inj_on {α β : Type} (f : α → β) (l : List α)
    (h : (l.map f).Nodup) (a b : α) (ha : a ∈ l) (hb : b ∈ l) (hf : f a = f b) :
    a = b := by
  induction l with
  | nil => exact absurd ha (List.not_mem_nil a)
  | cons x rest ih =>
      rw [List.map_cons, List.nodup_cons] at h
      rcases List.mem_cons.mp ha with ha0 | ha1
      · rcases List.mem_cons.mp hb with hb0 | hb1
        · exact ha0.trans hb0.symm
        · exact absurd (ha0 ▸ hf ▸ List.mem_map_of_mem f hb1) (ha0 ▸ h.1)
      · rcases List.mem_cons.mp hb with hb0 | hb1
        · exact absurd (hb0 ▸ hf ▸ List.mem_map_of_mem f ha1) (hb0 ▸ h.1)
        · exact ih h.2 ha1 hb1

/-! ## Claim C1 -/

/-- A record whose parsed genre list contains the empty string (the parse
keeps `''` entries after stripping). -/
def c1rec : Record :=
  [("id", .vint 1), ("vote_average", .vnum 5), ("genres_list", .vstr "['Drama', '']")]

/-- Claim C1 counterexample: the record's parsed genre list is
`["Drama", ""]` and its rating is `5 > 0`, yet after the rebuild its key
is not a member of `genre:` (the bucket for the empty genre), because the
`if genre:` guard at line 140 skips empty genre values.  So "member of
`genre:g` for every g in G" fails at g = `""`. -/
theorem c1_counterexample :
    (extract c1rec).map Extracted.genres = some ["Drama", ""] ∧
    (extract c1rec).map Extracted.voteAvg = some 5 ∧
    "movie:1" ∉ (rebuild [c1rec] Store.empty).smembers ("genre:" ++ "") := by
  refine ⟨by decide, by decide, by decide⟩

/-- Claim C1 (amended): for every record processed by a rebuild over
records with pairwise-distinct, nonempty stringified ids, and for every
NONEMPTY genre g in its parsed genre list, when the coerced rating V is
positive the record's key is a member of `genre:g` and carries score
exactly V in `top_rated:g`. -/
theorem c1_genre_and_scoped_ranking (ms : List Record) (st0 : Store) (m : Record)
    (e : Extracted) (g : String) (hnd : (ms.map recordId).Nodup) (hm : m ∈ ms)
    (he : extract m = some e) (hid : e.movieId ≠ "") (hg : g ∈ e.genres)
    (hgne : g ≠ "") (hv : 0 < e.voteAvg) :
    movieKey e.movieId ∈ (rebuild ms st0).smembers ("genre:" ++ g) ∧
    (rebuild ms st0).zscore ("top_rated:" ++ g) (movieKey e.movieId) =
      some e.voteAvg := by
  constructor
  · exact (mem_smembers_rebuild ms st0 _ _ (managedKey_of_ns "genre:" g (by decide))).mpr
      ⟨m, hm, (setContrib_genre m g _).mpr ⟨e, he, hid, rfl, hg, hgne⟩⟩
  · exact zscore_topRated_rebuild ms st0 m e g hnd hm he hid hg hgne hv

/-- A well-formed record for the C1 witness. -/
def c1wrec : Record :=
  [("id", .vint 7), ("vote_average", .vnum 8), ("genres_list", .vstr "['Drama']")]

/-- The attribute bundle `c1wrec` extracts to. -/
def c1wext : Extracted :=
  { movieId := "7", voteAvg := 8, imdbRating := 0, budget := 0, revenue := 0,
    runtime := 0, popularity := 0, voteCount := 0, year := none, language := "",
    director := "", mainCast := "", genres := ["Drama"], countries := [] }

/-- Claim C1 witness: the amended claim applied to a concrete one-record
store. -/
theorem c1_witness :
    movieKey "7" ∈ (rebuild [c1wrec] Store.empty).smembers ("genre:" ++ "Drama") ∧
    (rebuild [c1wrec] Store.empty).zscore ("top_rated:" ++ "Drama") (movieKey "7") =
      some 8 :=
  c1_genre_and_scoped_ranking [c1wrec] Store.empty c1wrec c1wext "Drama"
    (by decide) (List.mem_singleton.mpr rfl) (by decide) (by decide) (by decide)
    (by decide) (by decide)

/-! ## Claim C2 -/

/-- A record whose budget coerces to `5` but whose `vote_average` field
holds the non-numeric string `"abc"`. -/
def c2rec : Record :=
  [("id", .vint 1), ("vote_average", .vstr "abc"), ("budget", .vnum 5)]

/-- Claim C2 counterexample: the record's coerced budget is `5 ∈ [1, 10]`
and positive, yet the budget range query returns nothing, because the
non-numeric `vote_average` makes the whole record raise and be skipped by
the rebuild.  "Returns exactly the record keys whose coerced field value
lies in [lo, hi] and is > 0" therefore fails. -/
theorem c2_counterexample :
    coerceNum (getField c2rec "budget") = some 5 ∧
    loLe (.fin 1) 5 = true ∧ hiGe (.fin 10) 5 = true ∧
    zrangebyscore (rebuild [c2rec] Store.empty) (zsetName .budget)
      (.fin 1) (.fin 10) = [] := by
  refine ⟨by decide, by decide, by decide, by decide⟩

/-- Claim C2 (amended): over records with pairwise-distinct stringified
ids, a numeric range query on a managed field returns exactly the keys of
the records that were processed without error, have a nonempty id, and
whose coerced field value is positive and lies within the bounds
(infinity sentinels allowed); zero / absent values are never returned. -/
theorem c2_range_query_exact (ms : List Record) (st0 : Store) (f : NumField)
    (lo hi : Bound) (k : String) (hnd : (ms.map recordId).Nodup) :
    k ∈ zrangebyscore (rebuild ms st0) (zsetName f) lo hi ↔
      ∃ m, m ∈ ms ∧ ∃ e, extract m = some e ∧ e.movieId ≠ "" ∧
        k = movieKey e.movieId ∧ 0 < fieldVal e f ∧
        loLe lo (fieldVal e f) = true ∧ hiGe hi (fieldVal e f) = true := by
  rw [mem_zrangebyscore _ _ _ _ _ (znodup_rebuild ms st0 _ (managedKey_zsetName f))]
  constructor
  · rintro ⟨v, hv, hlo, hhi⟩
    rcases (zscore_zset_rebuild ms st0 f k v hnd).mp hv with
      ⟨m, hm, e, he, hid, hk, hfv, hpos⟩
    subst hfv
    exact ⟨m, hm, e, he, hid, hk, hpos, hlo, hhi⟩
  · rintro ⟨m, hm, e, he, hid, hk, hpos, hlo, hhi⟩
    exact ⟨fieldVal e f,
      (zscore_zset_rebuild ms st0 f k _ hnd).mpr ⟨m, hm, e, he, hid, hk, rfl, hpos⟩,
      hlo, hhi⟩

/-- A well-formed record for the C2 witness. -/
def c2wrec : Record := [("id", .vint 4), ("budget", .vnum 5)]

/-- The attribute bundle `c2wrec` extracts to. -/
def c2wext : Extracted :=
  { movieId := "4", voteAvg := 0, imdbRating := 0, budget := 5, revenue := 0,
    runtime := 0, popularity := 0, voteCount := 0, year := none, language := "",
    director := "", mainCast := "", genres := [], countries := [] }

/-- Claim C2 witness: the amended claim applied to a concrete one-record
store and the bounds `[1, 10]`. -/
theorem c2_witness :
    movieKey "4" ∈ zrangebyscore (rebuild [c2wrec] Store.empty) (zsetName .budget)
      (.fin 1) (.fin 10) :=
  (c2_range_query_exact [c2wrec] Store.empty .budget (.fin 1) (.fin 10)
      (movieKey "4") (by decide)).mpr
    ⟨c2wrec, List.mem_singleton.mpr rfl, c2wext, by decide, by decide, rfl,
      by decide, by decide, by decide⟩

/-! ## Claim C4 -/

/-- A record with a non-numeric `vote_average` and an otherwise indexable
genre list. -/
def c4rec : Record :=
  [("id", .vint 1), ("vote_average", .vstr "abc"), ("genres_list", .vstr "['Drama']")]

/-- Claim C4 counterexample: `float("abc")` raises (it is not one of the
`None` / `""` / `"nan"` sentinel values), the record-level handler skips
the whole record, and the record is NOT indexed under its genre — contrary
to the claim that extraction never raises and the record is still indexed
by its other attributes. -/
theorem c4_counterexample :
    pyFloat (some (.vstr "abc")) = none ∧
    coerceNum (getField c4rec "vote_average") = none ∧
    extract c4rec = none ∧
    "movie:1" ∉ (rebuild [c4rec] Store.empty).smembers ("genre:" ++ "Drama") := by
  refine ⟨by decide, by decide, by decide, by decide⟩

/-- Claim C4 (amended): a missing, empty, or literal-`"nan"` value coerces
to `0.0`; any other non-coercible value raises, and the rebuild then skips
the whole record — leaving the store exactly as if the record were not in
the scan at all (so it is indexed under none of its attributes). -/
theorem c4_sentinel_coercion_and_skip :
    (∀ v, isSentinel v = true → coerceNum v = some 0) ∧
    (∀ v, coerceNum v = none ↔ isSentinel v = false ∧ pyFloat v = none) ∧
    (∀ pre post (m : Record) (st0 : Store), extract m = none →
      rebuild (pre ++ m :: post) st0 = rebuild (pre ++ post) st0) := by
  refine ⟨?_, ?_, ?_⟩
  · intro v h
    unfold coerceNum
    rw [if_pos h]
  · intro v
    cases hs : isSentinel v <;> simp [coerceNum, hs]
  · intro pre post m st0 hm
    unfold rebuild
    rw [List.foldl_append, List.foldl_append, List.foldl_cons,
      show processRecord (pre.foldl processRecord (cleanup st0)) m =
        pre.foldl processRecord (cleanup st0) by unfold processRecord; rw [hm]]

/-- A record whose numeric fields are all sentinel-coercible. -/
def c4wrec : Record := [("id", .vint 2), ("budget", .vstr ""), ("runtime", .vstr "nan")]

/-- Claim C4 witness: the amended claim applied to concrete values — the
sentinels coerce to 0 and a raising record drops out of the rebuild. -/
theorem c4_witness :
    coerceNum (some (.vstr "")) = some 0 ∧
    (coerceNum (some (.vstr "abc")) = none ↔
      isSentinel (some (.vstr "abc")) = false ∧ pyFloat (some (.vstr "abc")) = none) ∧
    rebuild ([c4wrec] ++ c4rec :: []) Store.empty = rebuild ([c4wrec] ++ []) Store.empty :=
  ⟨c4_sentinel_coercion_and_skip.1 (some (.vstr "")) (by decide),
    c4_sentinel_coercion_and_skip.2.1 (some (.vstr "abc")),
    c4_sentinel_coercion_and_skip.2.2 [c4wrec] [] c4rec Store.empty (by decide)⟩

/-! ## Claim C9 -/

/-- A record with an unparseable year AND a non-numeric rating. -/
def c9rec : Record :=
  [("id", .vint 1), ("release_year", .vstr "abc"), ("vote_average", .vstr "xyz"),
   ("genres_list", .vstr "['Drama']")]

/-- Claim C9 counterexample: this record's raw release-year is neither an
integer, a float, nor a digit-only string, so the claim asserts its key
still appears in `genre:Drama`; but its non-numeric `vote_average` makes
the record raise and be skipped entirely, so the key appears in no bucket
at all. -/
theorem c9_counterexample :
    parseYear (getField c9rec "release_year") = none ∧
    (extract c9rec).map Extracted.genres = none ∧
    "movie:1" ∉ (rebuild [c9rec] Store.empty).smembers ("genre:" ++ "Drama") := by
  refine ⟨by decide, by decide, by decide⟩

/-- Claim C9 (amended): for every record that IS processed (extraction
succeeds) in a rebuild over records with pairwise-distinct ids, an
unparseable year keeps the key out of every `year:*` bucket, while the key
still lands in the `genre:*` / `actor:*` buckets for its nonempty genre
values and main-cast value (given a nonempty id). -/
theorem c9_year_excluded (ms : List Record) (st0 : Store) (m : Record) (e : Extracted)
    (hnd : (ms.map recordId).Nodup) (hm : m ∈ ms) (he : extract m = some e)
    (hyr : e.year = none) :
    (∀ y, movieKey e.movieId ∉ (rebuild ms st0).smembers ("year:" ++ y)) ∧
    (e.movieId ≠ "" → ∀ g ∈ e.genres, g ≠ "" →
      movieKey e.movieId ∈ (rebuild ms st0).smembers ("genre:" ++ g)) ∧
    (e.movieId ≠ "" → e.mainCast ≠ "" →
      movieKey e.movieId ∈ (rebuild ms st0).smembers ("actor:" ++ e.mainCast)) := by
  refine ⟨?_, ?_, ?_⟩
  · intro y hmem
    rcases (mem_smembers_rebuild ms st0 _ _
        (managedKey_of_ns "year:" y (by decide))).mp hmem with ⟨m', hm', hc⟩
    rcases (setContrib_year m' y _).mp hc with ⟨e', he', hid', hk, hy'⟩
    have hmm : m = m' := by
      refine nodup_map_inj_on recordId ms hnd m m' hm hm' ?_
      rw [← extract_movieId m e he, ← extract_movieId m' e' he']
      exact movieKey_inj _ _ hk
    rw [← hmm] at he'
    rw [he] at he'
    rw [show e' = e from (Option.some.inj he').symm] at hy'
    rw [hyr] at hy'
    exact Option.noConfusion hy'
  · intro hid g hg hgne
    exact (mem_smembers_rebuild ms st0 _ _
        (managedKey_of_ns "genre:" g (by decide))).mpr
      ⟨m, hm, (setContrib_genre m g _).mpr ⟨e, he, hid, rfl, hg, hgne⟩⟩
  · intro hid hmc
    exact (mem_smembers_rebuild ms st0 _ _
        (managedKey_of_ns "actor:" e.mainCast (by decide))).mpr
      ⟨m, hm, (setContrib_actor m e.mainCast _).mpr ⟨e, he, hid, rfl, rfl, hmc⟩⟩

/-- A record with an unparseable year but well-formed other fields. -/
def c9wrec : Record :=
  [("id", .vint 3), ("release_year", .vstr "abc"), ("vote_average", .vnum 7),
   ("genres_list", .vstr "['Drama']"), ("Star1", .vstr "Tom")]

/-- The attribute bundle `c9wrec` extracts to. -/
def c9wext : Extracted :=
  { movieId := "3", voteAvg := 7, imdbRating := 0, budget := 0, revenue := 0,
    runtime := 0, popularity := 0, voteCount := 0, year := none, language := "",
    director := "", mainCast := "Tom", genres := ["Drama"], countries := [] }

/-- Claim C9 witness: the amended claim applied to a concrete one-record
store, instantiated at the year bucket `year:2015`. -/
theorem c9_witness :
    movieKey "3" ∉ (rebuild [c9wrec] Store.empty).smembers ("year:" ++ "2015") ∧
    movieKey "3" ∈ (rebuild [c9wrec] Store.empty).smembers ("genre:" ++ "Drama") ∧
    movieKey "3" ∈ (rebuild [c9wrec] Store.empty).smembers ("actor:" ++ "Tom") :=
  ⟨(c9_year_excluded [c9wrec] Store.empty c9wrec c9wext (by decide)
      (List.mem_singleton.mpr rfl) (by decide) (by decide)).1 "2015",
    (c9_year_excluded [c9wrec] Store.empty c9wrec c9wext (by decide)
      (List.mem_singleton.mpr rfl) (by decide) (by decide)).2.1 (by decide) "Drama"
      (by decide) (by decide),
    (c9_year_excluded [c9wrec] Store.empty c9wrec c9wext (by decide)
      (List.mem_singleton.mpr rfl) (by decide) (by decide)).2.2 (by decide) (by decide)⟩

/-! ## Claim C3 -/

/-- A record giving `genre:Drama = [movie:1]` after a rebuild. -/
def c3rec : Record :=
  [("id", .vint 1), ("genres_list", .vstr "['Drama']"), ("vote_average", .vnum 8)]

/-- The previously published snapshot for the C3 scenario. -/
def c3old : Store := rebuild [c3rec] Store.empty

/-- Claim C3 counterexample: across the observable states of a second
rebuild over the same record store, a reader sees `genre:Drama` empty —
a state matching NEITHER the previously published snapshot (`[movie:1]`)
NOR the final snapshot (`[movie:1]`).  The rebuild deletes eagerly and is
not all-or-nothing. -/
theorem c3_counterexample :
    c3old.smembers ("genre:" ++ "Drama") = ["movie:1"] ∧
    (rebuild [c3rec] c3old).smembers ("genre:" ++ "Drama") = ["movie:1"] ∧
    (rebuildStates [c3rec] c3old).map (fun s => s.smembers ("genre:" ++ "Drama")) =
      [[], ["movie:1"]] := by
  refine ⟨by decide, by decide, by decide⟩

/-- Claim C3 (amended): mid-rebuild states are observable and can reflect
a partially cleared / partially built index, but once the rebuild
completes, every managed set membership — and, over records with
pairwise-distinct ids, every global numeric-index score — is determined by
the scanned records alone, independent of the previously published index
state. -/
theorem c3_final_state_determined (ms : List Record) (st st' : Store) :
    (∀ K x, managedKey K = true →
      (x ∈ (rebuild ms st).smembers K ↔ x ∈ (rebuild ms st').smembers K)) ∧
    (∀ (f : NumField) (k : String), (ms.map recordId).Nodup →
      (rebuild ms st).zscore (zsetName f) k = (rebuild ms st').zscore (zsetName f) k) := by
  constructor
  · intro K x hK
    rw [mem_smembers_rebuild ms st K x hK, mem_smembers_rebuild ms st' K x hK]
  · intro f k hnd
    refine option_eq_of_some_iff _ _ (fun v => ?_)
    rw [zscore_zset_rebuild ms st f k v hnd, zscore_zset_rebuild ms st' f k v hnd]

/-- A dirty prior store for the C3 witness. -/
def c3dirty : Store := Store.empty.sadd "genre:Drama" "movie:99"

/-- Claim C3 witness: the amended claim applied to the dirty store against
the empty store, at a concrete key, member, and numeric field. -/
theorem c3_witness :
    ("movie:99" ∈ (rebuild [c3rec] c3dirty).smembers "genre:Drama" ↔
      "movie:99" ∈ (rebuild [c3rec] Store.empty).smembers "genre:Drama") ∧
    (rebuild [c3rec] c3dirty).zscore (zsetName .budget) "movie:1" =
      (rebuild [c3rec] Store.empty).zscore (zsetName .budget) "movie:1" :=
  ⟨(c3_final_state_determined [c3rec] c3dirty Store.empty).1 "genre:Drama" "movie:99"
      (by decide),
    (c3_final_state_determined [c3rec] c3dirty Store.empty).2 .budget "movie:1"
      (by decide)⟩

/-! ## Claim C8 -/

/-- A record store holding only a Drama movie. -/
def c8rec : Record :=
  [("id", .vint 1), ("genres_list", .vstr "['Drama']"), ("vote_average", .vnum 8)]

/-- The published index for the C8 scenario. -/
def c8st : Store := rebuild [c8rec] Store.empty

/-- Claim C8 counterexample: `Comedy` names a bucket outside the managed
set (no such key exists in the store), yet `query_by_genre` returns the
plain empty result — the same observable as any empty bucket — and the
query layer has no error channel at all, so no "unknown attribute" error
is ever signalled. -/
theorem c8_counterexample :
    query_by_genre c8st "Comedy" = [] ∧
    alookup c8st.sets ("genre:" ++ "Comedy") = none ∧
    query_by_genre c8st "Drama" = ["movie:1"] := by
  refine ⟨by decide, by decide, by decide⟩

/-- Claim C8 (amended): a query naming a bucket with no key in the store
returns the empty list as a normal result; nothing distinguishes an
unknown attribute from an attribute with no matching records. -/
theorem c8_unknown_attribute_empty (st : Store) (g y : String) :
    (alookup st.sets ("genre:" ++ g) = none → query_by_genre st g = []) ∧
    (alookup st.sets ("year:" ++ y) = none → query_by_year st y = []) := by
  constructor
  · intro h
    unfold query_by_genre Store.smembers
    rw [h]
    rfl
  · intro h
    unfold query_by_year Store.smembers
    rw [h]
    rfl

/-- Claim C8 witness: the amended claim applied to the concrete store at
an unmanaged genre and an unmanaged year. -/
theorem c8_witness :
    query_by_genre c8st "Comedy" = [] ∧ query_by_year c8st "1999" = [] :=
  ⟨(c8_unknown_attribute_empty c8st "Comedy" "1999").1 (by decide),
    (c8_unknown_attribute_empty c8st "Comedy" "1999").2 (by decide)⟩

/-! ## Claim C5 -/

/-- The claim's scenario store: genre ranking [(x,9), (y,8), (z,7)], with
only x and z in the target year bucket. -/
def c5store : Store :=
  ((((Store.empty.zadd "top_rated:G" "x" 9).zadd "top_rated:G" "y" 8).zadd
      "top_rated:G" "z" 7).sadd "year:Y" "x").sadd "year:Y" "z"

/-- Claim C5: `top_rated_by_genre_and_year` returns only members of the
scoped ranking that are in the year bucket, sorted by score descending,
of length `min K |intersection|`, and dominating every intersection
member it leaves out — and on the claim's scenario with K = 2 it returns
[x, z], not [x, y]. -/
theorem c5_top_rated_genre_year (st : Store) (genre year : String) (K : Nat) :
    (∀ p ∈ top_rated_by_genre_and_year st genre year K,
        p ∈ st.zpairs ("top_rated:" ++ genre) ∧ p.1 ∈ st.smembers ("year:" ++ year)) ∧
    (top_rated_by_genre_and_year st genre year K).Pairwise (fun a b => b.2 ≤ a.2) ∧
    (top_rated_by_genre_and_year st genre year K).length =
      min K ((st.zpairs ("top_rated:" ++ genre)).filter
        (fun p => (st.smembers ("year:" ++ year)).contains p.1)).length ∧
    (∀ p ∈ (st.zpairs ("top_rated:" ++ genre)).filter
        (fun p => (st.smembers ("year:" ++ year)).contains p.1),
      p ∉ top_rated_by_genre_and_year st genre year K →
        ∀ q ∈ top_rated_by_genre_and_year st genre year K, p.2 ≤ q.2) ∧
    top_rated_by_genre_and_year c5store "G" "Y" 2 = [("x", 9), ("z", 7)] := by
  have hdef : top_rated_by_genre_and_year st genre year K =
      (sortBy scoreDesc ((zrevrangeWithScores st ("top_rated:" ++ genre)).filter
        (fun p => (st.smembers ("year:" ++ year)).contains p.1))).take K := rfl
  have hrev : ∀ p, p ∈ zrevrangeWithScores st ("top_rated:" ++ genre) ↔
      p ∈ st.zpairs ("top_rated:" ++ genre) := by
    intro p
    unfold zrevrangeWithScores
    rw [List.mem_reverse, mem_sortBy]
  have hpw : (sortBy scoreDesc ((zrevrangeWithScores st ("top_rated:" ++ genre)).filter
      (fun p => (st.smembers ("year:" ++ year)).contains p.1))).Pairwise
      (fun a b => scoreDesc a b = true) :=
    pairwise_sortBy scoreDesc scoreDesc_trans scoreDesc_total _
  refine ⟨?_, ?_, ?_, ?_, by decide⟩
  · intro p hp
    rw [hdef] at hp
    have hpC := (mem_sortBy _ _ _).mp (List.take_subset K _ hp)
    rcases List.mem_filter.mp hpC with ⟨hpR, hpy⟩
    exact ⟨(hrev p).mp hpR, List.elem_iff.mp hpy⟩
  · rw [hdef]
    exact (hpw.sublist (List.take_sublist K _)).imp
      (fun hab => (scoreDesc_iff _ _).mp hab)
  · rw [hdef, List.length_take, length_sortBy]
    have hperm : List.Perm (zrevrangeWithScores st ("top_rated:" ++ genre))
        (st.zpairs ("top_rated:" ++ genre)) :=
      (List.reverse_perm _).trans (perm_sortBy _ _)
    rw [List.Perm.length_eq (hperm.filter _)]
  · intro p hpF hpnot q hq
    rw [hdef] at hpnot hq
    have hpC : p ∈ (zrevrangeWithScores st ("top_rated:" ++ genre)).filter
        (fun p => (st.smembers ("year:" ++ year)).contains p.1) :=
      List.mem_filter.mpr ⟨(hrev p).mpr (List.mem_filter.mp hpF).1,
        (List.mem_filter.mp hpF).2⟩
    have hpS := (mem_sortBy scoreDesc _ p).mpr hpC
    rw [← List.take_append_drop K (sortBy scoreDesc _)] at hpS
    rcases List.mem_append.mp hpS with hin | hdrop
    · exact absurd hin hpnot
    · exact (scoreDesc_iff q p).mp
        (pairwise_take_drop _ _ K hpw q hq p hdrop)

/-- Claim C5 witness: part one of the claim applied at the scenario store
to the concrete returned pair (x, 9). -/
theorem c5_witness :
    ("x", (9 : Rat)) ∈ c5store.zpairs ("top_rated:" ++ "G") ∧
    "x" ∈ c5store.smembers ("year:" ++ "Y") :=
  (c5_top_rated_genre_year c5store "G" "Y" 2).1 ("x", 9) (by decide)

/-! ## Claim C6 -/

/-- Claim C6: the boolean intersection query returns exactly the keys in
both `actor:a` and `genre:g`, and the same key set results when the two
input sets are evaluated in the opposite order. -/
theorem c6_intersection_exact (st : Store) (a g : String) :
    (∀ k, k ∈ query_by_actor_and_genre st a g ↔
        k ∈ st.smembers ("actor:" ++ a) ∧ k ∈ st.smembers ("genre:" ++ g)) ∧
    (∀ k, k ∈ query_by_actor_and_genre st a g ↔
        k ∈ sinter st ("genre:" ++ g) ("actor:" ++ a)) := by
  have hmem : ∀ k1 k2 k, k ∈ sinter st k1 k2 ↔
      k ∈ st.smembers k1 ∧ k ∈ st.smembers k2 := by
    intro k1 k2 k
    unfold sinter
    rw [List.mem_filter]
    constructor
    · rintro ⟨h1, h2⟩
      exact ⟨h1, List.elem_iff.mp h2⟩
    · rintro ⟨h1, h2⟩
      exact ⟨h1, List.elem_iff.mpr h2⟩
  constructor
  · intro k
    exact hmem ("actor:" ++ a) ("genre:" ++ g) k
  · intro k
    rw [show query_by_actor_and_genre st a g = sinter st ("actor:" ++ a) ("genre:" ++ g)
        from rfl,
      hmem, hmem, and_comm]

/-! ## Claim C7 -/

/-- A primary store with one positively and one zero-rated Drama movie. -/
def c7db : String → Option Record := fun k =>
  if k = "movie:1" then some [("vote_average", .vnum 8)]
  else if k = "movie:2" then some [("vote_average", .vnum 0)] else none

/-- A genre bucket holding both movies. -/
def c7st : Store := (Store.empty.sadd "genre:Drama" "movie:1").sadd "genre:Drama" "movie:2"

/-- Claim C7 counterexample: the `genre:Drama` bucket has two members, but
the per-genre aggregation reports `movie_count = 1` (`len(ratings)`, only
the positively rated members) — contrary to the claim that the reported
membership count counts every member of the bucket. -/
theorem c7_counterexample :
    (aggregate_avg_rating_per_genre c7db c7st).map
      (fun e => (e.name, e.movieCount, e.maxRating, e.minRating)) =
      [("Drama", 1, 8, 8)] ∧
    (c7st.smembers ("genre:" ++ "Drama")).length = 2 := by
  refine ⟨by decide, by decide⟩

/-- Claim C7 (amended): per-genre aggregation reports count, mean, min and
max over the bucket members with a POSITIVE coerced rating only (buckets
with none are dropped); per-actor aggregation reports the full bucket size
as its count (with a `>= 3` support threshold) and the mean over positive
ratings only. -/
theorem c7_aggregates_positive_only (db : String → Option Record) (st : Store)
    (topN : Nat) :
    (∀ entry ∈ aggregate_avg_rating_per_genre db st,
      ∃ r rest, posRatings db (st.smembers ("genre:" ++ entry.name)) = r :: rest ∧
        entry.movieCount = (r :: rest).length ∧
        entry.avgRating = (r :: rest).sum / (r :: rest).length ∧
        entry.maxRating ∈ r :: rest ∧ (∀ v ∈ r :: rest, v ≤ entry.maxRating) ∧
        entry.minRating ∈ r :: rest ∧ (∀ v ∈ r :: rest, entry.minRating ≤ v)) ∧
    (∀ entry ∈ aggregate_top_actors_by_movie_count db st topN,
      entry.movieCount = (st.smembers ("actor:" ++ entry.name)).length ∧
        3 ≤ entry.movieCount ∧
        ∃ r rest, posRatings db (st.smembers ("actor:" ++ entry.name)) = r :: rest ∧
          entry.avgMovieRating = (r :: rest).sum / (r :: rest).length) := by
  constructor
  · intro entry hentry
    unfold aggregate_avg_rating_per_genre at hentry
    rw [mem_sortBy] at hentry
    rcases List.mem_filterMap.mp hentry with ⟨k, hk, hpe⟩
    have hns : keyHasNs "genre:" k = true := by
      unfold scanSets at hk
      exact (List.mem_filter.mp hk).2
    unfold perGenreEntry at hpe
    by_cases htr : keyHasNs "top_rated" (strDropChars k 6) = true
    · rw [if_pos htr] at hpe
      exact Option.noConfusion hpe
    · rw [if_neg htr] at hpe
      cases hpr : posRatings db (st.smembers k) with
      | nil => rw [hpr] at hpe; exact Option.noConfusion hpe
      | cons r rest =>
          rw [hpr] at hpe
          have hent := Option.some.inj hpe
          have hkey : "genre:" ++ entry.name = k := by
            rw [← hent]
            exact ns_strip "genre:" k hns
          refine ⟨r, rest, ?_, ?_, ?_, ?_, ?_, ?_, ?_⟩
          · rw [hkey]; exact hpr
          · rw [← hent]
          · rw [← hent]
          · rw [← hent]; exact foldl_max_mem rest r
          · intro v hv; rw [← hent]; exact le_foldl_max rest r v hv
          · rw [← hent]; exact foldl_min_mem rest r
          · intro v hv; rw [← hent]; exact foldl_min_le rest r v hv
  · intro entry hentry
    unfold aggregate_top_actors_by_movie_count at hentry
    have hentry' := List.take_subset topN _ hentry
    rw [mem_sortBy] at hentry'
    rcases List.mem_filterMap.mp hentry' with ⟨k, hk, hpe⟩
    have hns : keyHasNs "actor:" k = true := by
      unfold scanSets at hk
      exact (List.mem_filter.mp hk).2
    unfold perActorEntry at hpe
    by_cases h3 : 3 ≤ (st.smembers k).length
    · rw [if_pos h3] at hpe
      cases hpr : posRatings db (st.smembers k) with
      | nil => rw [hpr] at hpe; exact Option.noConfusion hpe
      | cons r rest =>
          rw [hpr] at hpe
          have hent := Option.some.inj hpe
          have hkey : "actor:" ++ entry.name = k := by
            rw [← hent]
            exact ns_strip "actor:" k hns
          refine ⟨?_, ?_, r, rest, ?_, ?_⟩
          · rw [hkey, ← hent]
          · rw [← hent]; exact h3
          · rw [hkey]; exact hpr
          · rw [← hent]
    · rw [if_neg h3] at hpe
      exact Option.noConfusion hpe

theorem headD_mem {α : Type} (l : List α) (d : α) (h : l ≠ []) : l.headD d ∈ l := by
  cases l with
  | nil => exact absurd rfl h
  | cons x xs => exact List.mem_cons.mpr (Or.inl rfl)

/-- The single row the concrete per-genre aggregation reports. -/
def c7wentry : GenreAgg :=
  (aggregate_avg_rating_per_genre c7db c7st).headD (GenreAgg.mk "" 0 0 0 0)

/-- Claim C7 witness: the amended claim applied to the concrete store and
its (only) reported genre row. -/
theorem c7_witness :
    ∃ r rest,
      posRatings c7db (c7st.smembers ("genre:" ++ c7wentry.name)) = r :: rest ∧
      c7wentry.movieCount = (r :: rest).length ∧
      c7wentry.avgRating = (r :: rest).sum / (r :: rest).length ∧
      c7wentry.maxRating ∈ r :: rest ∧
      (∀ v ∈ r :: rest, v ≤ c7wentry.maxRating) ∧
      c7wentry.minRating ∈ r :: rest ∧
      (∀ v ∈ r :: rest, c7wentry.minRating ≤ v) :=
  (c7_aggregates_positive_only c7db c7st 10).1 c7wentry
    (headD_mem _ _ (by decide))

/-! ## Claim C10 -/

/-- Every group key in the accumulated combination map is a sorted tuple
of at least two genre entries. -/
theorem combo_fold_keys (ms : List Record) (acc : List (List String × Nat × List Rat))
    (h : ∀ kv ∈ acc, 2 ≤ kv.1.length ∧ kv.1.Pairwise (fun a b => strLe a b = true)) :
    ∀ kv ∈ ms.foldl comboStep acc,
      2 ≤ kv.1.length ∧ kv.1.Pairwise (fun a b => strLe a b = true) := by
  induction ms generalizing acc with
  | nil => exact h
  | cons m rest ih =>
      rw [List.foldl_cons]
      refine ih _ ?_
      intro kv hkv
      unfold comboStep at hkv
      by_cases hg : 1 < (parseGenresTruthy (getField m "genres_list")).length
      · rw [if_pos hg] at hkv
        by_cases hkey : kv.1 = sortBy strLe (parseGenresTruthy (getField m "genres_list"))
        · rw [hkey, length_sortBy]
          exact ⟨hg, pairwise_sortBy strLe strLe_trans strLe_total _⟩
        · have hmem := (map_fst_mem_setUpd acc _ _ kv.1).mp
            (List.mem_map_of_mem Prod.fst hkv)
          rcases hmem with hold | hnew
          · rcases List.mem_map.mp hold with ⟨kv', hkv', hfst⟩
            rw [← hfst]
            exact h kv' hkv'
          · exact absurd hnew hkey
      · rw [if_neg hg] at hkv
        exact h kv hkv

/-- Records with fewer than two parsed genres leave the combination map
unchanged. -/
theorem combo_fold_filter (ms : List Record) (acc : List (List String × Nat × List Rat)) :
    ms.foldl comboStep acc =
      (ms.filter
        (fun m => 1 < (parseGenresTruthy (getField m "genres_list")).length)).foldl
        comboStep acc := by
  induction ms generalizing acc with
  | nil => rfl
  | cons m rest ih =>
      rw [List.foldl_cons, List.filter_cons]
      by_cases hg : 1 < (parseGenresTruthy (getField m "genres_list")).length
      · rw [if_pos (by simpa using hg), List.foldl_cons, ih]
      · rw [if_neg (by simpa using hg),
          show comboStep acc m = acc by unfold comboStep; rw [if_neg hg], ih]

/-- Claim C10: every group key produced by the genre-combination
aggregation is a sorted tuple of at least two genre entries, and records
whose parsed genre list (the truthiness-filtered parse of
`aggregate_genre_combinations`) has fewer than two entries contribute to
no group: removing them from the scan leaves the result unchanged. -/
theorem c10_combo_min_two_genres (ms : List Record) :
    (∀ entry ∈ aggregate_genre_combinations ms,
        2 ≤ entry.genres.length ∧ entry.genres.Pairwise (fun a b => strLe a b = true)) ∧
    aggregate_genre_combinations ms =
      aggregate_genre_combinations
        (ms.filter (fun m => 1 < (parseGenresTruthy (getField m "genres_list")).length)) := by
  constructor
  · intro entry hentry
    unfold aggregate_genre_combinations at hentry
    rw [mem_sortBy] at hentry
    rcases List.mem_filterMap.mp hentry with ⟨kv, hkv, hif⟩
    by_cases h3 : 3 ≤ kv.2.1
    · rw [if_pos h3] at hif
      have hent := Option.some.inj hif
      have := combo_fold_keys ms []
        (fun kv' hkv' => absurd hkv' (List.not_mem_nil kv')) kv hkv
      rw [← hent]
      exact this
    · rw [if_neg h3] at hif
      exact Option.noConfusion hif
  · unfold aggregate_genre_combinations
    rw [combo_fold_filter ms []]

/-- The claim's record mix: two-genre records in both orders, duplicated
to pass the support threshold, plus a single-genre record and a boundary
record whose raw list `['A', '']` holds only ONE truthy genre (the falsy
`''` entry is dropped by the `if g` filter, keeping the record below the
two-genre threshold). -/
def c10m1 : Record := [("genres_list", .vstr "['B', 'A']"), ("vote_average", .vnum 8)]

def c10m2 : Record := [("genres_list", .vstr "['A', 'B']"), ("vote_average", .vnum 6)]

def c10m4 : Record := [("genres_list", .vstr "['A']"), ("vote_average", .vnum 9)]

def c10m5 : Record := [("genres_list", .vstr "['A', '']"), ("vote_average", .vnum 7)]

/-- The single group the concrete aggregation reports. -/
def c10wentry : ComboAgg :=
  (aggregate_genre_combinations [c10m1, c10m2, c10m2, c10m4, c10m5]).headD
    (ComboAgg.mk [] 0 0)

/-- Claim C10 witness: the claim applied to the concrete scan and its
reported group; the boundary record's truthy genre list has length 1. -/
theorem c10_witness :
    (parseGenresTruthy (getField c10m5 "genres_list")).length = 1 ∧
    2 ≤ c10wentry.genres.length ∧
    c10wentry.genres.Pairwise (fun a b => strLe a b = true) :=
  ⟨by decide,
    (c10_combo_min_two_genres [c10m1, c10m2, c10m2, c10m4, c10m5]).1 c10wentry
      (headD_mem _ _ (by decide))⟩

end NoSQL
